import Mathlib

/-! Digraph (src/Digraph.hpp): a shallow embedding

The class template `Digraph<VertexInfo, EdgeInfo>` keeps a
`std::map<int, DigraphVertex<VertexInfo, EdgeInfo>>` together with two
`unsigned int` counters.  The embedding below follows the member functions of
the header one by one.

* `std::map<int, β>` is the list of its entries in increasing key order
  (the order in which the C++ iterators walk it).
* `std::list<DigraphEdge<EdgeInfo>>` is a `List`.
* `int` vertex numbers are `Int` (they are only stored and compared).
* the `unsigned int` counters are `Nat` with explicit arithmetic modulo `2^32`.
* a member function that can throw returns `Except Failure _`.
-/

namespace TrafficOptimizer

/-! ## Failures -/

/-- The ways a member function can end without returning a value. -/
inductive Failure where
  /-- A `throw DigraphException(reason)` -/
  | digraphException (reason : String)
  /-- The exception `std::out_of_range`, thrown by `std::map::at` for an absent key -/
  | outOfRange
  /-- A step whose outcome the language leaves undefined (a read past the end
  of a `std::vector`, a `std::list` iterator advanced after its element was
  erased or compared with the end of another list, the value of an
  uninitialised `bool`, a `double` stored into an `int` that cannot hold it). -/
  | undefinedBehaviour
  /-- The step budget of the model ended before the code did. -/
  | outOfFuel
  deriving DecidableEq, Repr

/-! ## `std::map<int, β>` -/

/-- Entries of a `std::map<int, β>` in increasing key order. -/
abbrev StdMap (β : Type) := List (Int × β)

/-- The expression `m.count(key)` -/
def mapCount {β : Type} : StdMap β → Int → Nat
  | [], _ => 0
  | (k, _) :: rest, key => if k = key then 1 else mapCount rest key

/-- The expression `m.at(key)`; `none` stands for the `std::out_of_range` it throws. -/
def mapAt {β : Type} : StdMap β → Int → Option β
  | [], _ => none
  | (k, v) :: rest, key => if k = key then some v else mapAt rest key

/-- The expression `m.insert(std::make_pair(key, value))`: a new entry at its place in key
order; an entry that is already there is left alone. -/
def mapInsert {β : Type} : StdMap β → Int → β → StdMap β
  | [], key, value => [(key, value)]
  | (k, v) :: rest, key, value =>
    if key < k then (key, value) :: (k, v) :: rest
    else if k = key then (k, v) :: rest
    else (k, v) :: mapInsert rest key value

/-- The expression `m[key] = value`: overwrite the entry, or insert it in key order. -/
def mapAssign {β : Type} : StdMap β → Int → β → StdMap β
  | [], key, value => [(key, value)]
  | (k, v) :: rest, key, value =>
    if key < k then (key, value) :: (k, v) :: rest
    else if k = key then (k, value) :: rest
    else (k, v) :: mapAssign rest key value

/-- The expression `m.erase(key)` -/
def mapErase {β : Type} : StdMap β → Int → StdMap β
  | [], _ => []
  | (k, v) :: rest, key => if k = key then rest else (k, v) :: mapErase rest key

/-- The update `f` applied to the value that `m.at(key)` refers to. -/
def mapUpdate {β : Type} (f : β → β) : StdMap β → Int → StdMap β
  | [], _ => []
  | (k, v) :: rest, key =>
    if k = key then (k, f v) :: rest else (k, v) :: mapUpdate f rest key

/-! ## The graph -/

/-- The `struct DigraphEdge` -/
structure DigraphEdge (EdgeInfo : Type) where
  fromVertex : Int
  toVertex : Int
  einfo : EdgeInfo
  deriving DecidableEq, Repr

/-- The `struct DigraphVertex` -/
structure DigraphVertex (VertexInfo EdgeInfo : Type) where
  vinfo : VertexInfo
  edges : List (DigraphEdge EdgeInfo)
  deriving DecidableEq, Repr

/-- The data members of `class Digraph`. -/
structure Digraph (VertexInfo EdgeInfo : Type) where
  map : StdMap (DigraphVertex VertexInfo EdgeInfo)
  vertexNumber : Nat
  edgeNumber : Nat
  deriving DecidableEq, Repr

/-- Operator `++` on an `unsigned int` -/
def uintIncr (n : Nat) : Nat := (n + 1) % 2 ^ 32

/-- Operator `--` on an `unsigned int` -/
def uintDecr (n : Nat) : Nat := (n + (2 ^ 32 - 1)) % 2 ^ 32

/-- An `unsigned int` returned as `int`. -/
def uintToInt (n : Nat) : Int := if n < 2 ^ 31 then (n : Int) else (n : Int) - 2 ^ 32

variable {VertexInfo EdgeInfo : Type}

/-- Member function `Digraph::Digraph()` -/
def Digraph.empty : Digraph VertexInfo EdgeInfo :=
  { map := [], vertexNumber := 0, edgeNumber := 0 }

/-- Member function `Digraph::Digraph(Digraph&& d)`: the new graph starts with an empty map and
both counters 0, then the three members are swapped with those of `d`.
Returns the new graph and what is left in `d`. -/
def Digraph.moveConstruct (d : Digraph VertexInfo EdgeInfo) :
    Digraph VertexInfo EdgeInfo × Digraph VertexInfo EdgeInfo :=
  let self : Digraph VertexInfo EdgeInfo := { map := [], vertexNumber := 0, edgeNumber := 0 }
  -- std::swap(map, d.map)
  let (self, d) := ({ self with map := d.map }, { d with map := self.map })
  -- std::swap(vertexNumber, d.vertexNumber)
  let (self, d) := ({ self with vertexNumber := d.vertexNumber },
                    { d with vertexNumber := self.vertexNumber })
  -- std::swap(edgeNumber, d.edgeNumber)
  let (self, d) := ({ self with edgeNumber := d.edgeNumber },
                    { d with edgeNumber := self.edgeNumber })
  (self, d)

/-- Member function `Digraph::operator=(Digraph&& d)` for two distinct objects: the three
members are swapped.  Returns the assigned graph and what is left in `d`. -/
def Digraph.moveAssign (self d : Digraph VertexInfo EdgeInfo) :
    Digraph VertexInfo EdgeInfo × Digraph VertexInfo EdgeInfo :=
  -- std::swap(map, d.map)
  let (self, d) := ({ self with map := d.map }, { d with map := self.map })
  -- std::swap(vertexNumber, d.vertexNumber)
  let (self, d) := ({ self with vertexNumber := d.vertexNumber },
                    { d with vertexNumber := self.vertexNumber })
  -- std::swap(edgeNumber, d.edgeNumber)
  let (self, d) := ({ self with edgeNumber := d.edgeNumber },
                    { d with edgeNumber := self.edgeNumber })
  (self, d)

/-- Member function `Digraph::vertices()` -/
def Digraph.vertices (g : Digraph VertexInfo EdgeInfo) : List Int :=
  g.map.map (fun entry => entry.1)

/-- Member function `Digraph::edges()` -/
def Digraph.edges (g : Digraph VertexInfo EdgeInfo) : List (Int × Int) :=
  g.map.flatMap (fun entry => entry.2.edges.map (fun e => (e.fromVertex, e.toVertex)))

/-- The loop of `Digraph::edges(int vertex)` over the whole map: entries with
another key are skipped. -/
def edgesOfLoop (vertex : Int) :
    StdMap (DigraphVertex VertexInfo EdgeInfo) → List (Int × Int)
  | [] => []
  | (k, v) :: rest =>
    if k ≠ vertex then edgesOfLoop vertex rest
    else v.edges.map (fun e => (vertex, e.toVertex)) ++ edgesOfLoop vertex rest

/-- Member function `Digraph::edges(int vertex)` -/
def Digraph.edgesOf (g : Digraph VertexInfo EdgeInfo) (vertex : Int) :
    Except Failure (List (Int × Int)) :=
  if mapCount g.map vertex = 0 then
    .error (.digraphException "No appropriate vertex found!")
  else
    .ok (edgesOfLoop vertex g.map)

/-- Member function `Digraph::vertexInfo(int vertex)` -/
def Digraph.vertexInfo (g : Digraph VertexInfo EdgeInfo) (vertex : Int) :
    Except Failure VertexInfo :=
  if mapCount g.map vertex = 0 then
    .error (.digraphException "No appropriate vertex found!")
  else
    match mapAt g.map vertex with
    | some v => .ok v.vinfo
    | none => .error .outOfRange

/-- The last loop of `Digraph::edgeInfo`: every edge of the list whose
`toVertex` matches overwrites the value to return. -/
def edgeInfoLoop (toVertex : Int) : List (DigraphEdge EdgeInfo) → EdgeInfo → EdgeInfo
  | [], returnEdgeInfo => returnEdgeInfo
  | e :: rest, returnEdgeInfo =>
    if e.toVertex = toVertex then edgeInfoLoop toVertex rest e.einfo
    else edgeInfoLoop toVertex rest returnEdgeInfo

/-- Member function `Digraph::edgeInfo(int fromVertex, int toVertex)`; `dflt` is the
default-constructed `EdgeInfo returnEdgeInfo`. -/
def Digraph.edgeInfo (dflt : EdgeInfo) (g : Digraph VertexInfo EdgeInfo)
    (fromVertex toVertex : Int) : Except Failure EdgeInfo :=
  if mapCount g.map fromVertex = 0 ∨ mapCount g.map toVertex = 0 then
    .error (.digraphException "No appropriate vertex have found!")
  else
    match g.edgesOf fromVertex with
    | .error f => .error f
    | .ok edgeVector =>
      if (fromVertex, toVertex) ∉ edgeVector then
        .error (.digraphException "There is no edge between them!")
      else
        match mapAt g.map fromVertex with
        | some v => .ok (edgeInfoLoop toVertex v.edges dflt)
        | none => .error .outOfRange

/-- Member function `Digraph::addVertex(int vertex, const VertexInfo& vinfo)` -/
def Digraph.addVertex (g : Digraph VertexInfo EdgeInfo) (vertex : Int) (vinfo : VertexInfo) :
    Except Failure (Digraph VertexInfo EdgeInfo) :=
  if mapCount g.map vertex > 0 then
    .error (.digraphException "This vertex is already in the graph!")
  else
    .ok { g with
      map := mapInsert g.map vertex { vinfo := vinfo, edges := [] }
      vertexNumber := uintIncr g.vertexNumber }

/-- Member function `Digraph::addEdge(int fromVertex, int toVertex, const EdgeInfo& einfo)` -/
def Digraph.addEdge (g : Digraph VertexInfo EdgeInfo) (fromVertex toVertex : Int)
    (einfo : EdgeInfo) : Except Failure (Digraph VertexInfo EdgeInfo) :=
  if mapCount g.map fromVertex = 0 ∨ mapCount g.map toVertex = 0 then
    .error (.digraphException "Given verticies are not exist!")
  else
    match g.edgesOf fromVertex with
    | .error f => .error f
    | .ok edgeVector =>
      if (fromVertex, toVertex) ∈ edgeVector then
        .error (.digraphException "Edge is already in the graph")
      else
        match mapAt g.map fromVertex with
        | none => .error .outOfRange
        | some _ =>
          .ok { g with
            map := mapUpdate
              (fun v => { v with edges := v.edges ++ [⟨fromVertex, toVertex, einfo⟩] })
              g.map fromVertex
            edgeNumber := uintIncr g.edgeNumber }

/-- The inner loop of `Digraph::removeVertex`,
`for (it2 = begin(); it2 != end(); it2++) erase(it2)`.  On an empty list the
body never runs.  On any other list the first turn erases the element `it2`
points to, and the `it2++` that follows advances an iterator that `erase` has
invalidated: the language leaves that step undefined. -/
def eraseEach : List (DigraphEdge EdgeInfo) → Except Failure (List (DigraphEdge EdgeInfo))
  | [] => .ok []
  | _ :: _ => .error .undefinedBehaviour

/-- The outer loop of `Digraph::removeVertex`: entries with another key are
skipped, the inner loop runs on the edge list of the entry with key `vertex`. -/
def removeVertexLoop (vertex : Int) :
    StdMap (DigraphVertex VertexInfo EdgeInfo) →
      Except Failure (StdMap (DigraphVertex VertexInfo EdgeInfo))
  | [] => .ok []
  | (k, v) :: rest =>
    if k ≠ vertex then
      match removeVertexLoop vertex rest with
      | .error f => .error f
      | .ok rest1 => .ok ((k, v) :: rest1)
    else
      match eraseEach v.edges with
      | .error f => .error f
      | .ok edges =>
        match removeVertexLoop vertex rest with
        | .error f => .error f
        | .ok rest1 => .ok ((k, { v with edges := edges }) :: rest1)

/-- Member function `Digraph::removeVertex(int vertex)`: the loop above, then
`map.erase(vertex)` and `vertexNumber--`.  No statement of it touches
`edgeNumber` or the edge list of another vertex. -/
def Digraph.removeVertex (g : Digraph VertexInfo EdgeInfo) (vertex : Int) :
    Except Failure (Digraph VertexInfo EdgeInfo) :=
  if mapCount g.map vertex = 0 then
    .error (.digraphException "This vertex does not exist in map!")
  else
    match removeVertexLoop vertex g.map with
    | .error f => .error f
    | .ok map1 =>
      .ok { g with
        map := mapErase map1 vertex
        vertexNumber := uintDecr g.vertexNumber }

/-- The loop of `Digraph::removeEdge`: the first edge of the list whose
`toVertex` matches is erased, then `break`. -/
def removeEdgeLoop (toVertex : Int) : List (DigraphEdge EdgeInfo) → List (DigraphEdge EdgeInfo)
  | [] => []
  | e :: rest => if e.toVertex = toVertex then rest else e :: removeEdgeLoop toVertex rest

/-- Member function `Digraph::removeEdge(int fromVertex, int toVertex)` -/
def Digraph.removeEdge (g : Digraph VertexInfo EdgeInfo) (fromVertex toVertex : Int) :
    Except Failure (Digraph VertexInfo EdgeInfo) :=
  if mapCount g.map fromVertex = 0 ∨ mapCount g.map toVertex = 0 then
    .error (.digraphException "Either fromVertex, or toVertex does not exist in graph!")
  else
    match g.edgesOf fromVertex with
    | .error f => .error f
    | .ok edgeVector =>
      if (fromVertex, toVertex) ∉ edgeVector then
        .error (.digraphException "Edge does not exist in the graph")
      else
        match mapAt g.map fromVertex with
        | none => .error .outOfRange
        | some _ =>
          .ok { g with
            map := mapUpdate (fun v => { v with edges := removeEdgeLoop toVertex v.edges })
              g.map fromVertex
            edgeNumber := uintDecr g.edgeNumber }

/-- Member function `Digraph::vertexCount()` -/
def Digraph.vertexCount (g : Digraph VertexInfo EdgeInfo) : Int := uintToInt g.vertexNumber

/-- Member function `Digraph::edgeCount()` -/
def Digraph.edgeCount (g : Digraph VertexInfo EdgeInfo) : Int := uintToInt g.edgeNumber

/-- Member function `Digraph::edgeCount(int vertex)`: one `counter++` for each
edge of the list (a list short enough for the `int` counter, fewer than
`2^31` edges). -/
def Digraph.edgeCountOf (g : Digraph VertexInfo EdgeInfo) (vertex : Int) :
    Except Failure Int :=
  if mapCount g.map vertex = 0 then
    .error (.digraphException "The vertex is not valid!")
  else
    match mapAt g.map vertex with
    | none => .error .outOfRange
    | some v => .ok (v.edges.foldl (fun counter _ => counter + 1) 0)

/-! ## Strong connectivity -/

/-- The loop of `Digraph::DFTr` over the edge list of `vertex`, from the edge
`it` points to onwards; `recurse` is the nested call `DFTr(vertex, visitedVertex)`.

A destination that is not yet in `visitedVertex` is appended to it.  Otherwise
`vertex` is overwritten with the destination and `DFTr` is called with a copy
of `visitedVertex`; its result is dropped.  From then on the loop test
`it != map.at(vertex).edges.end()` reads the end of the list of the new
`vertex`: when that is another vertex, `it` belongs to a different list and the
test has no defined outcome. -/
def DFTrLoop (g : Digraph VertexInfo EdgeInfo)
    (recurse : Int → List Int → Except Failure Bool) (vertex : Int) :
    List (DigraphEdge EdgeInfo) → List Int → Except Failure Bool
  | [], visitedVertex => .ok (visitedVertex.length == g.vertexNumber)
  | e :: rest, visitedVertex =>
    if e.toVertex ∉ visitedVertex then
      DFTrLoop g recurse vertex rest (visitedVertex ++ [e.toVertex])
    else
      match recurse e.toVertex visitedVertex with
      | .error f => .error f
      | .ok _ =>
        if e.toVertex = vertex then DFTrLoop g recurse vertex rest visitedVertex
        else .error .undefinedBehaviour

/-- Member function `Digraph::DFTr(int vertex, std::vector<int> visitedVertex)`; `fuel` bounds
the depth of nested calls. -/
def Digraph.DFTr (g : Digraph VertexInfo EdgeInfo) :
    Nat → Int → List Int → Except Failure Bool
  | 0, _, _ => .error .outOfFuel
  | fuel + 1, vertex, visitedVertex =>
    match mapAt g.map vertex with
    | none => .error .outOfRange
    | some v =>
      DFTrLoop g (fun w visited => Digraph.DFTr g fuel w visited) vertex v.edges visitedVertex

/-- The loop of `Digraph::isStronglyConnected`: `x` is overwritten with the
result of `DFTr(it->first, visitedVector)` for each entry of the map;
`visitedVector` is passed by value and stays empty.  `x` is `none` while the
`bool` is uninitialised. -/
def isStronglyConnectedLoop (g : Digraph VertexInfo EdgeInfo) (fuel : Nat) :
    StdMap (DigraphVertex VertexInfo EdgeInfo) → Option Bool → Except Failure (Option Bool)
  | [], x => .ok x
  | (k, _) :: rest, _ =>
    match g.DFTr fuel k [] with
    | .error f => .error f
    | .ok b => isStronglyConnectedLoop g fuel rest (some b)

/-- Member function `Digraph::isStronglyConnected()`; `fuel` is the depth allowed to the
nested calls of each traversal. -/
def Digraph.isStronglyConnected (fuel : Nat) (g : Digraph VertexInfo EdgeInfo) :
    Except Failure Bool :=
  match isStronglyConnectedLoop g fuel g.map none with
  | .error f => .error f
  | .ok none => .error .undefinedBehaviour
  | .ok (some x) => .ok x

/-! ## Shortest paths -/

/-- The expression `m[key]` read as a value: the entry is created with `dflt` (the
value-initialised mapped type) when it is absent. -/
def mapIndex {β : Type} (dflt : β) (m : StdMap β) (key : Int) : β × StdMap β :=
  match mapAt m key with
  | some v => (v, m)
  | none => (dflt, mapAssign m key dflt)

/-- The call `pq.push(entry)` on the
`std::priority_queue<std::pair<int,int>, ..., std::greater<std::pair<int,int>>>`:
the queue is the list of its entries in increasing order of `std::pair`
(first component, then second), so that `pq.top()` is the head and `pq.pop()`
the tail. -/
def pqPush : List (Int × Int) → Int × Int → List (Int × Int)
  | [], entry => [entry]
  | top :: rest, entry =>
    if entry.1 < top.1 ∨ (entry.1 = top.1 ∧ entry.2 ≤ top.2) then entry :: top :: rest
    else top :: pqPush rest entry

/-- The local variables of `Digraph::findShortestPaths`. -/
structure SearchState where
  k : StdMap Bool
  d : StdMap Int
  predecessor : List Int
  pq : List (Int × Int)
  deriving DecidableEq, Repr

/-- Whether an integral `double` can be stored into an `int`. -/
def fitsInt (x : Int) : Bool := decide (-(2 ^ 31) ≤ x) && decide (x < 2 ^ 31)

/-- The first loop of `Digraph::findShortestPaths`: `k[key] = false` and
`d[key] = inf` for each entry of the map. -/
def initLoop (inf : Int) :
    StdMap (DigraphVertex VertexInfo EdgeInfo) → StdMap Bool × StdMap Int →
      StdMap Bool × StdMap Int
  | [], kd => kd
  | (key, _) :: rest, (k, d) => initLoop inf rest (mapAssign k key false, mapAssign d key inf)

/-- The loop of `Digraph::findShortestPaths` over the edges of `minVertex`.
The test is the one of the source, `d[it->toVertex] < d[minVertex] + w`. -/
def relaxLoop (edgeWeightFunc : EdgeInfo → Int) (minVertex : Int) :
    List (DigraphEdge EdgeInfo) → SearchState → Except Failure SearchState
  | [], s => .ok s
  | e :: rest, s =>
    let (dTo, d1) := mapIndex 0 s.d e.toVertex
    let (dMin, d2) := mapIndex 0 d1 minVertex
    if dTo < dMin + edgeWeightFunc e.einfo then
      if fitsInt (dMin + edgeWeightFunc e.einfo) then
        relaxLoop edgeWeightFunc minVertex rest
          { s with
            d := mapAssign d2 e.toVertex (dMin + edgeWeightFunc e.einfo)
            predecessor := s.predecessor ++ [minVertex]
            pq := pqPush s.pq (e.toVertex, dMin + edgeWeightFunc e.einfo) }
      else .error .undefinedBehaviour
    else relaxLoop edgeWeightFunc minVertex rest { s with d := d2 }

/-- The `while(!pq.empty())` loop of `Digraph::findShortestPaths`; one unit of
`fuel` for each turn. -/
def searchLoop (g : Digraph VertexInfo EdgeInfo) (edgeWeightFunc : EdgeInfo → Int) :
    Nat → SearchState → Except Failure SearchState
  | 0, s =>
    match s.pq with
    | [] => .ok s
    | _ :: _ => .error .outOfFuel
  | fuel + 1, s =>
    match s.pq with
    | [] => .ok s
    | (minVertex, _) :: pq =>
      let (kMin, k) := mapIndex false s.k minVertex
      if kMin = false then
        match mapAt g.map minVertex with
        | none => .error .outOfRange
        | some v =>
          match relaxLoop edgeWeightFunc minVertex v.edges
              { s with k := mapAssign k minVertex true, pq := pq } with
          | .error f => .error f
          | .ok s1 => searchLoop g edgeWeightFunc fuel s1
      else searchLoop g edgeWeightFunc fuel { s with k := k, pq := pq }

/-- The last loop of `Digraph::findShortestPaths`: the `j`-th key of `d` gets
`predecessor[j]`; a `j` past the end of `predecessor` is a read outside the
vector. -/
def resultLoop (predecessor : List Int) : StdMap Int → Nat → StdMap Int →
    Except Failure (StdMap Int)
  | [], _, returnValue => .ok returnValue
  | (key, _) :: rest, j, returnValue =>
    match predecessor.get? j with
    | none => .error .undefinedBehaviour
    | some p => resultLoop predecessor rest (j + 1) (mapAssign returnValue key p)

/-- Member function `Digraph::findShortestPaths(int startVertex, edgeWeightFunc)`.

* `edgeWeightFunc` is taken with integral values.
* `inf` is the `int` that `d[it->first] = inf` stores: the `double`
  9999999999 is outside the range of `int`, so the language does not fix the
  stored value; it is a parameter here.
* `fuel` bounds the number of turns of the `while` loop. -/
def Digraph.findShortestPaths (fuel : Nat) (inf : Int) (g : Digraph VertexInfo EdgeInfo)
    (startVertex : Int) (edgeWeightFunc : EdgeInfo → Int) : Except Failure (StdMap Int) :=
  let (k, d) := initLoop inf g.map ([], [])
  let d := mapAssign d startVertex 0
  let predecessor := [startVertex]
  let pq := pqPush [] (startVertex, 0)
  match searchLoop g edgeWeightFunc fuel { k := k, d := d, predecessor := predecessor, pq := pq } with
  | .error f => .error f
  | .ok s => resultLoop s.predecessor s.d 0 []

/-! ## Graphs built through the public operations -/

/-- The graphs obtained from the empty graph by successful calls of
`addVertex`, `addEdge`, `removeVertex` and `removeEdge`. -/
inductive Built : Digraph VertexInfo EdgeInfo → Prop
  | empty : Built Digraph.empty
  | addVertex {g g1 : Digraph VertexInfo EdgeInfo} (vertex : Int) (vinfo : VertexInfo) :
      Built g → g.addVertex vertex vinfo = .ok g1 → Built g1
  | addEdge {g g1 : Digraph VertexInfo EdgeInfo} (fromVertex toVertex : Int) (einfo : EdgeInfo) :
      Built g → g.addEdge fromVertex toVertex einfo = .ok g1 → Built g1
  | removeVertex {g g1 : Digraph VertexInfo EdgeInfo} (vertex : Int) :
      Built g → g.removeVertex vertex = .ok g1 → Built g1
  | removeEdge {g g1 : Digraph VertexInfo EdgeInfo} (fromVertex toVertex : Int) :
      Built g → g.removeEdge fromVertex toVertex = .ok g1 → Built g1

/-- The edge list kept under a key of the map: every edge has that key as
`fromVertex`, and no two edges have the same `toVertex`. -/
def EntryOk (entry : Int × DigraphVertex VertexInfo EdgeInfo) : Prop :=
  (∀ e ∈ entry.2.edges, e.fromVertex = entry.1) ∧
  (entry.2.edges.map (fun e => e.toVertex)).Nodup

/-- The representation invariant of the map: keys strictly increasing, and
every entry consistent. -/
def Digraph.WellFormed (g : Digraph VertexInfo EdgeInfo) : Prop :=
  g.map.Pairwise (fun a b => a.1 < b.1) ∧ ∀ entry ∈ g.map, EntryOk entry

/-- One call of a mutating member function. -/
inductive Op (VertexInfo EdgeInfo : Type) where
  | addVertex (vertex : Int) (vinfo : VertexInfo)
  | addEdge (fromVertex toVertex : Int) (einfo : EdgeInfo)
  | removeVertex (vertex : Int)
  | removeEdge (fromVertex toVertex : Int)

/-- The call `op` made on `g`. -/
def Digraph.call (g : Digraph VertexInfo EdgeInfo) :
    Op VertexInfo EdgeInfo → Except Failure (Digraph VertexInfo EdgeInfo)
  | .addVertex vertex vinfo => g.addVertex vertex vinfo
  | .addEdge fromVertex toVertex einfo => g.addEdge fromVertex toVertex einfo
  | .removeVertex vertex => g.removeVertex vertex
  | .removeEdge fromVertex toVertex => g.removeEdge fromVertex toVertex

/-- The calls `ops` made one after the other on `g`, up to the first that throws. -/
def Digraph.calls (g : Digraph VertexInfo EdgeInfo) :
    List (Op VertexInfo EdgeInfo) → Except Failure (Digraph VertexInfo EdgeInfo)
  | [] => .ok g
  | op :: ops =>
    match g.call op with
    | .error f => .error f
    | .ok g1 => g1.calls ops

/-! ## Graphs used as concrete inputs (vertex payload `Unit`, edge payload its weight) -/

/-- Vertex 1 alone. -/
def graphSingle : Digraph Unit Int :=
  { map := [(1, { vinfo := (), edges := [] })], vertexNumber := 1, edgeNumber := 0 }

/-- Vertices 1 and 2, no edge. -/
def graphTwoIsolated : Digraph Unit Int :=
  { map := [(1, { vinfo := (), edges := [] }), (2, { vinfo := (), edges := [] })],
    vertexNumber := 2, edgeNumber := 0 }

/-- Vertices 1 and 2 with the edge 1 → 2. -/
def graphOneEdge : Digraph Unit Int :=
  { map := [(1, { vinfo := (), edges := [⟨1, 2, 7⟩] }), (2, { vinfo := (), edges := [] })],
    vertexNumber := 2, edgeNumber := 1 }

/-- Vertices 1 and 2 with the edges 1 → 2 and 2 → 1. -/
def graphTwoCycle : Digraph Unit Int :=
  { map := [(1, { vinfo := (), edges := [⟨1, 2, 1⟩] }), (2, { vinfo := (), edges := [⟨2, 1, 1⟩] })],
    vertexNumber := 2, edgeNumber := 2 }

/-- What `removeVertex(2)` leaves of `graphOneEdge`. -/
def graphAfterRemoveTarget : Digraph Unit Int :=
  { map := [(1, { vinfo := (), edges := [⟨1, 2, 7⟩] })], vertexNumber := 1, edgeNumber := 1 }

/-- The graph `graphAfterRemoveTarget` with vertex 2 added again. -/
def graphReAdded : Digraph Unit Int :=
  { map := [(1, { vinfo := (), edges := [⟨1, 2, 7⟩] }), (2, { vinfo := (), edges := [] })],
    vertexNumber := 2, edgeNumber := 1 }

/-- Vertices A = 1, B = 2, C = 3 with A → B of weight 1, B → C of weight 1
and A → C of weight 5. -/
def graphABC : Digraph Unit Int :=
  { map := [(1, { vinfo := (), edges := [⟨1, 2, 1⟩, ⟨1, 3, 5⟩] }),
            (2, { vinfo := (), edges := [⟨2, 3, 1⟩] }),
            (3, { vinfo := (), edges := [] })],
    vertexNumber := 3, edgeNumber := 3 }

/-- Vertices 1 and 2 with the single edge 2 → 2 of weight 1. -/
def graphLoopAtTwo : Digraph Unit Int :=
  { map := [(1, { vinfo := (), edges := [] }), (2, { vinfo := (), edges := [⟨2, 2, 1⟩] })],
    vertexNumber := 2, edgeNumber := 1 }

/-- The graph `graphABC` with one more vertex D = 4 that has no edge. -/
def graphABCD : Digraph Unit Int :=
  { map := [(1, { vinfo := (), edges := [⟨1, 2, 1⟩, ⟨1, 3, 5⟩] }),
            (2, { vinfo := (), edges := [⟨2, 3, 1⟩] }),
            (3, { vinfo := (), edges := [] }),
            (4, { vinfo := (), edges := [] })],
    vertexNumber := 4, edgeNumber := 3 }

/-- Vertices 1 and 2 with the edges 2 → 1 and 2 → 2; no edge leaves vertex 1. -/
def graphNoWayBack : Digraph Unit Int :=
  { map := [(1, { vinfo := (), edges := [] }),
            (2, { vinfo := (), edges := [⟨2, 1, 1⟩, ⟨2, 2, 1⟩] })],
    vertexNumber := 2, edgeNumber := 2 }

/-- Vertex 7 alone. -/
def graphSeven : Digraph Unit Int :=
  { map := [(7, { vinfo := (), edges := [] })], vertexNumber := 1, edgeNumber := 0 }

/-- Vertex 1 with the edge 1 → 1. -/
def graphLoopAtOne : Digraph Unit Int :=
  { map := [(1, { vinfo := (), edges := [⟨1, 1, 1⟩] })], vertexNumber := 1, edgeNumber := 1 }

/-! ## The object after a call, thrown exception included

The functions above return the new graph of a call that succeeds.  The
functions below follow the same statements and return the value of `*this`
when the call ends, together with the exception it threw, if any. -/

/-- The statements of `Digraph::addVertex`: the object when the call ends and
the exception thrown. -/
def Digraph.addVertexRun (g : Digraph VertexInfo EdgeInfo) (vertex : Int) (vinfo : VertexInfo) :
    Digraph VertexInfo EdgeInfo × Option Failure :=
  if mapCount g.map vertex > 0 then
    (g, some (.digraphException "This vertex is already in the graph!"))
  else
    -- map.insert(newPair)
    let g1 : Digraph VertexInfo EdgeInfo := { g with map := mapInsert g.map vertex { vinfo := vinfo, edges := [] } }
    -- vertexNumber++
    let g2 : Digraph VertexInfo EdgeInfo := { g1 with vertexNumber := uintIncr g1.vertexNumber }
    (g2, none)

/-- The statements of `Digraph::addEdge`: the object when the call ends and
the exception thrown. -/
def Digraph.addEdgeRun (g : Digraph VertexInfo EdgeInfo) (fromVertex toVertex : Int)
    (einfo : EdgeInfo) : Digraph VertexInfo EdgeInfo × Option Failure :=
  if mapCount g.map fromVertex = 0 ∨ mapCount g.map toVertex = 0 then
    (g, some (.digraphException "Given verticies are not exist!"))
  else
    match g.edgesOf fromVertex with
    | .error f => (g, some f)
    | .ok edgeVector =>
      if (fromVertex, toVertex) ∈ edgeVector then
        (g, some (.digraphException "Edge is already in the graph"))
      else
        match mapAt g.map fromVertex with
        | none => (g, some .outOfRange)
        | some _ =>
          -- map.at(fromVertex).edges.push_back(...)
          let g1 : Digraph VertexInfo EdgeInfo := { g with
            map := mapUpdate
              (fun v => { v with edges := v.edges ++ [⟨fromVertex, toVertex, einfo⟩] })
              g.map fromVertex }
          -- edgeNumber++
          let g2 : Digraph VertexInfo EdgeInfo := { g1 with edgeNumber := uintIncr g1.edgeNumber }
          (g2, none)

/-- The inner loop of `Digraph::removeVertex` as a run: the list when the
loop stops, and how it stopped.  On a list that is not empty the first element
has been erased when the undefined `it2++` is reached. -/
def eraseEachRun :
    List (DigraphEdge EdgeInfo) → List (DigraphEdge EdgeInfo) × Option Failure
  | [] => ([], none)
  | _ :: rest => (rest, some .undefinedBehaviour)

/-- The outer loop of `Digraph::removeVertex` as a run: the map when the loop
stops, and how it stopped. -/
def removeVertexLoopRun (vertex : Int) :
    StdMap (DigraphVertex VertexInfo EdgeInfo) →
      StdMap (DigraphVertex VertexInfo EdgeInfo) × Option Failure
  | [] => ([], none)
  | (k, v) :: rest =>
    if k ≠ vertex then
      ((k, v) :: (removeVertexLoopRun vertex rest).1, (removeVertexLoopRun vertex rest).2)
    else
      match (eraseEachRun v.edges).2 with
      | some f => ((k, { v with edges := (eraseEachRun v.edges).1 }) :: rest, some f)
      | none =>
        ((k, { v with edges := (eraseEachRun v.edges).1 }) :: (removeVertexLoopRun vertex rest).1,
          (removeVertexLoopRun vertex rest).2)

/-- The statements of `Digraph::removeVertex`: the object when the call ends
and the exception thrown, or the object when the undefined step of the inner
loop is reached. -/
def Digraph.removeVertexRun (g : Digraph VertexInfo EdgeInfo) (vertex : Int) :
    Digraph VertexInfo EdgeInfo × Option Failure :=
  if mapCount g.map vertex = 0 then
    (g, some (.digraphException "This vertex does not exist in map!"))
  else
    -- the loop over the map
    let g1 : Digraph VertexInfo EdgeInfo := { g with map := (removeVertexLoopRun vertex g.map).1 }
    match (removeVertexLoopRun vertex g.map).2 with
    | some f => (g1, some f)
    | none =>
      -- map.erase(vertex)
      let g2 : Digraph VertexInfo EdgeInfo := { g1 with map := mapErase g1.map vertex }
      -- vertexNumber--
      let g3 : Digraph VertexInfo EdgeInfo := { g2 with vertexNumber := uintDecr g2.vertexNumber }
      (g3, none)

/-- The statements of `Digraph::removeEdge`: the object when the call ends and
the exception thrown. -/
def Digraph.removeEdgeRun (g : Digraph VertexInfo EdgeInfo) (fromVertex toVertex : Int) :
    Digraph VertexInfo EdgeInfo × Option Failure :=
  if mapCount g.map fromVertex = 0 ∨ mapCount g.map toVertex = 0 then
    (g, some (.digraphException "Either fromVertex, or toVertex does not exist in graph!"))
  else
    match g.edgesOf fromVertex with
    | .error f => (g, some f)
    | .ok edgeVector =>
      if (fromVertex, toVertex) ∉ edgeVector then
        (g, some (.digraphException "Edge does not exist in the graph"))
      else
        match mapAt g.map fromVertex with
        | none => (g, some .outOfRange)
        | some _ =>
          -- the loop erasing the edge
          let g1 : Digraph VertexInfo EdgeInfo := { g with
            map := mapUpdate (fun v => { v with edges := removeEdgeLoop toVertex v.edges })
              g.map fromVertex }
          -- edgeNumber--
          let g2 : Digraph VertexInfo EdgeInfo := { g1 with edgeNumber := uintDecr g1.edgeNumber }
          (g2, none)

/-- The call `op` made on `g`: the object when the call ends and the exception
thrown. -/
def Digraph.callRun (g : Digraph VertexInfo EdgeInfo) :
    Op VertexInfo EdgeInfo → Digraph VertexInfo EdgeInfo × Option Failure
  | .addVertex vertex vinfo => g.addVertexRun vertex vinfo
  | .addEdge fromVertex toVertex einfo => g.addEdgeRun fromVertex toVertex einfo
  | .removeVertex vertex => g.removeVertexRun vertex
  | .removeEdge fromVertex toVertex => g.removeEdgeRun fromVertex toVertex

/-- The outcome of a run as a value of `Except`: the object of a call that
returned, or the exception of a call that threw. -/
def outcome (r : Digraph VertexInfo EdgeInfo × Option Failure) :
    Except Failure (Digraph VertexInfo EdgeInfo) :=
  match r.2 with
  | some f => .error f
  | none => .ok r.1

/-! ## The search of findShortestPaths, step by step -/

/-- The local variables of `Digraph::findShortestPaths` when the `while` loop
is entered. -/
def Digraph.searchStart (inf : Int) (g : Digraph VertexInfo EdgeInfo) (startVertex : Int) :
    SearchState :=
  let (k, d) := initLoop inf g.map ([], [])
  { k := k, d := mapAssign d startVertex 0, predecessor := [startVertex],
    pq := pqPush [] (startVertex, 0) }

/-- One turn of the `while(!pq.empty())` loop of `Digraph::findShortestPaths`
(the body of `searchLoop`); a state with an empty queue is returned as it is. -/
def whileTurn (g : Digraph VertexInfo EdgeInfo) (edgeWeightFunc : EdgeInfo → Int)
    (s : SearchState) : Except Failure SearchState :=
  match s.pq with
  | [] => .ok s
  | (minVertex, _) :: pq =>
    let (kMin, k) := mapIndex false s.k minVertex
    if kMin = false then
      match mapAt g.map minVertex with
      | none => .error .outOfRange
      | some v =>
        relaxLoop edgeWeightFunc minVertex v.edges
          { s with k := mapAssign k minVertex true, pq := pq }
    else .ok { s with k := k, pq := pq }

/-- The local variables of `Digraph::findShortestPaths` when the `while` loop
has ended. -/
def Digraph.searchEnd (fuel : Nat) (inf : Int) (g : Digraph VertexInfo EdgeInfo)
    (startVertex : Int) (edgeWeightFunc : EdgeInfo → Int) : Except Failure SearchState :=
  searchLoop g edgeWeightFunc fuel (g.searchStart inf startVertex)

/-- Vertices 1, 2 and 3 with the edges 1 → 2 of weight 5 and 1 → 3 of weight 1. -/
def graphFan : Digraph Unit Int :=
  { map := [(1, { vinfo := (), edges := [⟨1, 2, 5⟩, ⟨1, 3, 1⟩] }),
            (2, { vinfo := (), edges := [] }),
            (3, { vinfo := (), edges := [] })],
    vertexNumber := 3, edgeNumber := 2 }

/-- What `removeVertex(2)` and `removeVertex(3)` leave of `graphFan`. -/
def graphFanCut : Digraph Unit Int :=
  { map := [(1, { vinfo := (), edges := [⟨1, 2, 5⟩, ⟨1, 3, 1⟩] })],
    vertexNumber := 1, edgeNumber := 2 }

/-! ## How the test graphs are built -/

theorem built_calls {g g1 : Digraph VertexInfo EdgeInfo} (ops : List (Op VertexInfo EdgeInfo))
    (hg : Built g) (h : g.calls ops = .ok g1) : Built g1 := by
  induction ops generalizing g with
  | nil =>
    simp only [Digraph.calls, Except.ok.injEq] at h
    exact h ▸ hg
  | cons op ops ih =>
    simp only [Digraph.calls] at h
    cases hc : g.call op with
    | error f => simp [hc] at h
    | ok g2 =>
      rw [hc] at h
      refine ih ?_ h
      cases op with
      | addVertex vertex vinfo => exact Built.addVertex vertex vinfo hg hc
      | addEdge a b e => exact Built.addEdge a b e hg hc
      | removeVertex vertex => exact Built.removeVertex vertex hg hc
      | removeEdge a b => exact Built.removeEdge a b hg hc

theorem graphSingle_calls :
    (Digraph.empty : Digraph Unit Int).calls [.addVertex 1 ()] = .ok graphSingle := rfl

theorem graphTwoIsolated_calls :
    (Digraph.empty : Digraph Unit Int).calls [.addVertex 1 (), .addVertex 2 ()]
      = .ok graphTwoIsolated := rfl

theorem graphOneEdge_calls :
    (Digraph.empty : Digraph Unit Int).calls [.addVertex 1 (), .addVertex 2 (), .addEdge 1 2 7]
      = .ok graphOneEdge := rfl

theorem graphTwoCycle_calls :
    (Digraph.empty : Digraph Unit Int).calls
      [.addVertex 1 (), .addVertex 2 (), .addEdge 1 2 1, .addEdge 2 1 1] = .ok graphTwoCycle := rfl

theorem graphAfterRemoveTarget_calls :
    graphOneEdge.calls [.removeVertex 2] = .ok graphAfterRemoveTarget := rfl

theorem graphReAdded_calls :
    graphAfterRemoveTarget.calls [.addVertex 2 ()] = .ok graphReAdded := rfl

theorem graphABC_calls :
    (Digraph.empty : Digraph Unit Int).calls
      [.addVertex 1 (), .addVertex 2 (), .addVertex 3 (),
       .addEdge 1 2 1, .addEdge 2 3 1, .addEdge 1 3 5] = .ok graphABC := rfl

theorem graphLoopAtTwo_calls :
    (Digraph.empty : Digraph Unit Int).calls
      [.addVertex 1 (), .addVertex 2 (), .addEdge 2 2 1] = .ok graphLoopAtTwo := rfl

theorem graphABCD_calls :
    (Digraph.empty : Digraph Unit Int).calls
      [.addVertex 1 (), .addVertex 2 (), .addVertex 3 (), .addVertex 4 (),
       .addEdge 1 2 1, .addEdge 2 3 1, .addEdge 1 3 5] = .ok graphABCD := rfl

theorem graphNoWayBack_calls :
    (Digraph.empty : Digraph Unit Int).calls
      [.addVertex 1 (), .addVertex 2 (), .addEdge 2 1 1, .addEdge 2 2 1]
      = .ok graphNoWayBack := rfl

theorem graphSeven_calls :
    (Digraph.empty : Digraph Unit Int).calls [.addVertex 7 ()] = .ok graphSeven := rfl

theorem graphSingle_built : Built graphSingle := built_calls _ Built.empty graphSingle_calls

theorem graphTwoIsolated_built : Built graphTwoIsolated :=
  built_calls _ Built.empty graphTwoIsolated_calls

theorem graphOneEdge_built : Built graphOneEdge := built_calls _ Built.empty graphOneEdge_calls

theorem graphTwoCycle_built : Built graphTwoCycle := built_calls _ Built.empty graphTwoCycle_calls

theorem graphAfterRemoveTarget_built : Built graphAfterRemoveTarget :=
  built_calls _ graphOneEdge_built graphAfterRemoveTarget_calls

theorem graphReAdded_built : Built graphReAdded :=
  built_calls _ graphAfterRemoveTarget_built graphReAdded_calls

theorem graphABC_built : Built graphABC := built_calls _ Built.empty graphABC_calls

theorem graphLoopAtTwo_built : Built graphLoopAtTwo :=
  built_calls _ Built.empty graphLoopAtTwo_calls

theorem graphABCD_built : Built graphABCD := built_calls _ Built.empty graphABCD_calls

theorem graphNoWayBack_built : Built graphNoWayBack :=
  built_calls _ Built.empty graphNoWayBack_calls

theorem graphSeven_built : Built graphSeven := built_calls _ Built.empty graphSeven_calls

/-! ## The map operations -/

theorem mapAt_eq_none_of_count {β : Type} (m : StdMap β) (key : Int)
    (h : mapCount m key = 0) : mapAt m key = none := by
  induction m with
  | nil => rfl
  | cons a rest ih =>
    obtain ⟨k, v⟩ := a
    by_cases hk : k = key
    · simp [mapCount, hk] at h
    · simp only [mapCount, hk, if_false] at h
      simp [mapAt, hk, ih h]

theorem mapCount_pos_iff_mem {β : Type} (m : StdMap β) (key : Int) :
    mapCount m key ≠ 0 ↔ key ∈ m.map Prod.fst := by
  induction m with
  | nil => simp [mapCount]
  | cons a rest ih =>
    obtain ⟨k, v⟩ := a
    by_cases hk : k = key
    · simp [mapCount, hk]
    · have hk2 : ¬ key = k := fun h => hk h.symm
      simp only [mapCount, hk, if_false, ih, List.map_cons, List.mem_cons, hk2, false_or]

theorem mapAt_mapAssign {β : Type} (m : StdMap β) (key key2 : Int) (value : β) :
    mapAt (mapAssign m key value) key2 = if key = key2 then some value else mapAt m key2 := by
  induction m with
  | nil => simp [mapAssign, mapAt]
  | cons a rest ih =>
    obtain ⟨k, v⟩ := a
    by_cases h1 : key < k
    · simp [mapAssign, h1, mapAt]
    · by_cases h2 : k = key
      · subst h2
        by_cases h3 : k = key2 <;> simp [mapAssign, mapAt, h3]
      · simp only [mapAssign, h1, h2, if_false, mapAt, ih]
        by_cases h3 : k = key2
        · have h4 : ¬ key = key2 := fun h => h2 (h3.trans h.symm)
          simp [h3, h4]
        · simp [h3]

theorem mem_mapInsert {β : Type} (m : StdMap β) (key : Int) (value : β) (a : Int × β)
    (h : a ∈ mapInsert m key value) : a = (key, value) ∨ a ∈ m := by
  induction m with
  | nil => simpa [mapInsert] using h
  | cons b rest ih =>
    obtain ⟨k, v⟩ := b
    by_cases h1 : key < k
    · simp only [mapInsert, h1, if_true, List.mem_cons] at h
      simpa using h
    · by_cases h2 : k = key
      · simp only [mapInsert, h1, h2, if_false, if_true] at h
        exact Or.inr (by simpa [h2] using h)
      · simp only [mapInsert, h1, h2, if_false, List.mem_cons] at h
        rcases h with h | h
        · exact Or.inr (by simp [h])
        · rcases ih h with h | h
          · exact Or.inl h
          · exact Or.inr (List.mem_cons_of_mem _ h)

theorem mapInsert_pairwise {β : Type} (m : StdMap β) (key : Int) (value : β)
    (h : m.Pairwise (fun a b => a.1 < b.1)) :
    (mapInsert m key value).Pairwise (fun a b => a.1 < b.1) := by
  induction m with
  | nil => simp [mapInsert]
  | cons b rest ih =>
    obtain ⟨k, v⟩ := b
    rw [List.pairwise_cons] at h
    by_cases h1 : key < k
    · simp only [mapInsert, h1, if_true]
      refine List.pairwise_cons.2 ⟨?_, List.pairwise_cons.2 h⟩
      intro a ha
      rcases List.mem_cons.1 ha with ha | ha
      · simpa [ha] using h1
      · exact lt_trans h1 (h.1 a ha)
    · by_cases h2 : k = key
      · subst h2
        simp only [mapInsert, h1, if_false, if_true]
        exact List.pairwise_cons.2 h
      · simp only [mapInsert, h1, h2, if_false]
        refine List.pairwise_cons.2 ⟨?_, ih h.2⟩
        intro a ha
        rcases mem_mapInsert rest key value a ha with ha | ha
        · have : k < key := by omega
          simpa [ha] using this
        · exact h.1 a ha

theorem mapUpdate_keys {β : Type} (f : β → β) (m : StdMap β) (key : Int) :
    (mapUpdate f m key).map Prod.fst = m.map Prod.fst := by
  induction m with
  | nil => rfl
  | cons b rest ih =>
    obtain ⟨k, v⟩ := b
    by_cases h : k = key
    · simp [mapUpdate, h]
    · simp [mapUpdate, h, ih]

theorem mem_mapUpdate {β : Type} (f : β → β) (m : StdMap β) (key : Int) (a : Int × β)
    (h : a ∈ mapUpdate f m key) : a ∈ m ∨ ∃ v, (key, v) ∈ m ∧ a = (key, f v) := by
  induction m with
  | nil => simp [mapUpdate] at h
  | cons b rest ih =>
    obtain ⟨k, v⟩ := b
    by_cases hk : k = key
    · simp only [mapUpdate, hk, if_true, List.mem_cons] at h
      rcases h with h | h
      · exact Or.inr ⟨v, by simp [hk], h⟩
      · exact Or.inl (List.mem_cons_of_mem _ h)
    · simp only [mapUpdate, hk, if_false, List.mem_cons] at h
      rcases h with h | h
      · exact Or.inl (by simp [h])
      · rcases ih h with h | ⟨w, hw, ha⟩
        · exact Or.inl (List.mem_cons_of_mem _ h)
        · exact Or.inr ⟨w, List.mem_cons_of_mem _ hw, ha⟩

theorem pairwise_of_keys_eq {β γ : Type} (m : StdMap β) (m2 : StdMap γ)
    (hk : m2.map Prod.fst = m.map Prod.fst) (h : m.Pairwise (fun a b => a.1 < b.1)) :
    m2.Pairwise (fun a b => a.1 < b.1) := by
  have h1 : (m.map Prod.fst).Pairwise (fun x y => x < y) := List.pairwise_map.2 h
  rw [← hk] at h1
  exact List.pairwise_map.1 h1

theorem mapErase_sublist {β : Type} (m : StdMap β) (key : Int) :
    (mapErase m key).Sublist m := by
  induction m with
  | nil => exact List.Sublist.refl _
  | cons b rest ih =>
    obtain ⟨k, v⟩ := b
    by_cases h : k = key
    · simp only [mapErase, h, if_true]
      exact List.sublist_cons_self _ _
    · simp only [mapErase, h, if_false]
      exact ih.cons₂ _

theorem not_mem_keys_mapErase {β : Type} (m : StdMap β) (key : Int)
    (h : m.Pairwise (fun a b => a.1 < b.1)) : key ∉ (mapErase m key).map Prod.fst := by
  induction m with
  | nil => simp [mapErase]
  | cons b rest ih =>
    obtain ⟨k, v⟩ := b
    rw [List.pairwise_cons] at h
    by_cases hk : k = key
    · simp only [mapErase, hk, if_true]
      intro hmem
      obtain ⟨a, ha, hka⟩ := List.mem_map.1 hmem
      have := h.1 a ha
      simp only at this
      omega
    · simp only [mapErase, hk, if_false, List.map_cons, List.mem_cons, not_or]
      exact ⟨fun h2 => hk h2.symm, ih h.2⟩

theorem eraseEach_ok (l l1 : List (DigraphEdge EdgeInfo)) (h : eraseEach l = .ok l1) :
    l = [] ∧ l1 = [] := by
  cases l with
  | nil =>
    simp only [eraseEach, Except.ok.injEq] at h
    exact ⟨rfl, h.symm⟩
  | cons e rest => simp [eraseEach] at h

/-- When the loop of `removeVertex` returns, the map is as it was, and the edge
list under the key `vertex` was empty. -/
theorem removeVertexLoop_ok (vertex : Int) (m m1 : StdMap (DigraphVertex VertexInfo EdgeInfo))
    (h : removeVertexLoop vertex m = .ok m1) :
    m1 = m ∧ ∀ entry ∈ m, entry.1 = vertex → entry.2.edges = [] := by
  induction m generalizing m1 with
  | nil =>
    simp only [removeVertexLoop, Except.ok.injEq] at h
    exact ⟨h.symm, fun entry he => by simp at he⟩
  | cons b rest ih =>
    obtain ⟨k, v⟩ := b
    by_cases hk : k = vertex
    · simp only [removeVertexLoop, hk, ne_eq, not_true_eq_false, if_false] at h
      cases he : eraseEach v.edges with
      | error f => simp [he] at h
      | ok edges =>
        obtain ⟨hnil, hnil1⟩ := eraseEach_ok _ _ he
        cases hr : removeVertexLoop vertex rest with
        | error f => simp [he, hr] at h
        | ok rest1 =>
          obtain ⟨hrest, hempty⟩ := ih rest1 hr
          simp only [he, hr, Except.ok.injEq] at h
          refine ⟨?_, ?_⟩
          · rw [← h, hrest, hnil1]
            have hv : ({ v with edges := [] } : DigraphVertex VertexInfo EdgeInfo) = v := by
              cases v
              simp only at hnil
              simp [hnil]
            rw [hv, hk]
          · intro entry hentry hkey
            rcases List.mem_cons.1 hentry with h1 | h1
            · rw [h1]
              exact hnil
            · exact hempty entry h1 hkey
    · simp only [removeVertexLoop, hk, ne_eq, not_false_eq_true, if_true] at h
      cases hr : removeVertexLoop vertex rest with
      | error f => simp [hr] at h
      | ok rest1 =>
        obtain ⟨hrest, hempty⟩ := ih rest1 hr
        simp only [hr, Except.ok.injEq] at h
        refine ⟨by rw [← h, hrest], ?_⟩
        intro entry hentry hkey
        rcases List.mem_cons.1 hentry with h1 | h1
        · rw [h1] at hkey
          exact absurd hkey hk
        · exact hempty entry h1 hkey

theorem mem_edgesOfLoop (vertex : Int) (m : StdMap (DigraphVertex VertexInfo EdgeInfo))
    (v : DigraphVertex VertexInfo EdgeInfo) (e : DigraphEdge EdgeInfo)
    (hv : (vertex, v) ∈ m) (he : e ∈ v.edges) : (vertex, e.toVertex) ∈ edgesOfLoop vertex m := by
  induction m with
  | nil => simp at hv
  | cons b rest ih =>
    obtain ⟨k, w⟩ := b
    rcases List.mem_cons.1 hv with h | h
    · have hk : k = vertex := by simpa using (congrArg Prod.fst h).symm
      have hw : w = v := by simpa using (congrArg Prod.snd h).symm
      simp only [edgesOfLoop, hk, ne_eq, not_true_eq_false, if_false, List.mem_append]
      exact Or.inl (List.mem_map.2 ⟨e, hw ▸ he, rfl⟩)
    · by_cases hk : k = vertex
      · simp only [edgesOfLoop, hk, ne_eq, not_true_eq_false, if_false, List.mem_append]
        exact Or.inr (ih h)
      · simp only [edgesOfLoop, hk, ne_eq, not_false_eq_true, if_true]
        exact ih h

theorem removeEdgeLoop_sublist (toVertex : Int) (l : List (DigraphEdge EdgeInfo)) :
    (removeEdgeLoop toVertex l).Sublist l := by
  induction l with
  | nil => exact List.Sublist.refl _
  | cons e rest ih =>
    by_cases h : e.toVertex = toVertex
    · simp only [removeEdgeLoop, h, if_true]
      exact List.sublist_cons_self _ _
    · simp only [removeEdgeLoop, h, if_false]
      exact ih.cons₂ _

/-! ## What a successful call returns -/

theorem addVertex_ok {g g1 : Digraph VertexInfo EdgeInfo} {vertex : Int} {vinfo : VertexInfo}
    (h : g.addVertex vertex vinfo = .ok g1) :
    mapCount g.map vertex = 0 ∧
    g1 = { g with
      map := mapInsert g.map vertex { vinfo := vinfo, edges := [] }
      vertexNumber := uintIncr g.vertexNumber } := by
  unfold Digraph.addVertex at h
  split at h
  · cases h
  · rename_i hc
    injection h with h
    exact ⟨by omega, h.symm⟩

theorem addEdge_ok {g g1 : Digraph VertexInfo EdgeInfo} {fromVertex toVertex : Int}
    {einfo : EdgeInfo} (h : g.addEdge fromVertex toVertex einfo = .ok g1) :
    mapCount g.map fromVertex ≠ 0 ∧ mapCount g.map toVertex ≠ 0 ∧
    (fromVertex, toVertex) ∉ edgesOfLoop fromVertex g.map ∧
    g1 = { g with
      map := mapUpdate
        (fun v => { v with edges := v.edges ++ [⟨fromVertex, toVertex, einfo⟩] })
        g.map fromVertex
      edgeNumber := uintIncr g.edgeNumber } := by
  unfold Digraph.addEdge at h
  split at h
  · cases h
  · rename_i hc
    have hc1 : mapCount g.map fromVertex ≠ 0 := fun h0 => hc (Or.inl h0)
    have hc2 : mapCount g.map toVertex ≠ 0 := fun h0 => hc (Or.inr h0)
    simp only [Digraph.edgesOf, hc1, if_false] at h
    split at h
    · cases h
    · rename_i hmem
      split at h
      · cases h
      · injection h with h
        exact ⟨hc1, hc2, hmem, h.symm⟩

theorem removeVertex_ok {g g1 : Digraph VertexInfo EdgeInfo} {vertex : Int}
    (h : g.removeVertex vertex = .ok g1) :
    mapCount g.map vertex ≠ 0 ∧
    (∀ entry ∈ g.map, entry.1 = vertex → entry.2.edges = []) ∧
    g1 = { g with
      map := mapErase g.map vertex
      vertexNumber := uintDecr g.vertexNumber } := by
  unfold Digraph.removeVertex at h
  split at h
  · cases h
  · rename_i hc
    cases hr : removeVertexLoop vertex g.map with
    | error f => simp [hr] at h
    | ok map1 =>
      obtain ⟨hmap, hempty⟩ := removeVertexLoop_ok vertex g.map map1 hr
      simp only [hr, Except.ok.injEq] at h
      exact ⟨hc, hempty, by rw [← h, hmap]⟩

theorem removeEdge_ok {g g1 : Digraph VertexInfo EdgeInfo} {fromVertex toVertex : Int}
    (h : g.removeEdge fromVertex toVertex = .ok g1) :
    mapCount g.map fromVertex ≠ 0 ∧ mapCount g.map toVertex ≠ 0 ∧
    (fromVertex, toVertex) ∈ edgesOfLoop fromVertex g.map ∧
    g1 = { g with
      map := mapUpdate (fun v => { v with edges := removeEdgeLoop toVertex v.edges })
        g.map fromVertex
      edgeNumber := uintDecr g.edgeNumber } := by
  unfold Digraph.removeEdge at h
  split at h
  · cases h
  · rename_i hc
    have hc1 : mapCount g.map fromVertex ≠ 0 := fun h0 => hc (Or.inl h0)
    have hc2 : mapCount g.map toVertex ≠ 0 := fun h0 => hc (Or.inr h0)
    simp only [Digraph.edgesOf, hc1, if_false] at h
    split at h
    · cases h
    · rename_i hmem
      split at h
      · cases h
      · injection h with h
        exact ⟨hc1, hc2, not_not.1 hmem, h.symm⟩

/-! ## The representation invariant -/

theorem wellFormed_empty : (Digraph.empty : Digraph VertexInfo EdgeInfo).WellFormed :=
  ⟨List.Pairwise.nil, fun _ h => by simp [Digraph.empty] at h⟩

theorem wellFormed_addVertex {g g1 : Digraph VertexInfo EdgeInfo} {vertex : Int}
    {vinfo : VertexInfo} (hg : g.WellFormed) (h : g.addVertex vertex vinfo = .ok g1) :
    g1.WellFormed := by
  obtain ⟨_, rfl⟩ := addVertex_ok h
  refine ⟨mapInsert_pairwise _ _ _ hg.1, ?_⟩
  intro entry hentry
  rcases mem_mapInsert _ _ _ _ hentry with he | he
  · subst he
    exact ⟨fun e h0 => by simp at h0, by simp⟩
  · exact hg.2 entry he

theorem wellFormed_addEdge {g g1 : Digraph VertexInfo EdgeInfo} {fromVertex toVertex : Int}
    {einfo : EdgeInfo} (hg : g.WellFormed) (h : g.addEdge fromVertex toVertex einfo = .ok g1) :
    g1.WellFormed := by
  obtain ⟨_, _, hnot, rfl⟩ := addEdge_ok h
  refine ⟨pairwise_of_keys_eq _ _ (mapUpdate_keys _ _ _) hg.1, ?_⟩
  intro entry hentry
  rcases mem_mapUpdate _ _ _ _ hentry with he | ⟨v, hv, he⟩
  · exact hg.2 entry he
  · subst he
    obtain ⟨hfrom, hnodup⟩ := hg.2 _ hv
    refine ⟨?_, ?_⟩
    · intro e h0
      rcases List.mem_append.1 h0 with h1 | h1
      · exact hfrom e h1
      · simp only [List.mem_singleton] at h1
        simp [h1]
    · simp only [List.map_append, List.map_cons, List.map_nil]
      refine List.Nodup.append hnodup (List.nodup_singleton _) ?_
      intro x hx1 hx2
      simp only [List.mem_singleton] at hx2
      subst hx2
      obtain ⟨e, he, hex⟩ := List.mem_map.1 hx1
      exact hnot (hex ▸ mem_edgesOfLoop fromVertex g.map v e hv he)

theorem wellFormed_removeVertex {g g1 : Digraph VertexInfo EdgeInfo} {vertex : Int}
    (hg : g.WellFormed) (h : g.removeVertex vertex = .ok g1) : g1.WellFormed := by
  obtain ⟨_, _, rfl⟩ := removeVertex_ok h
  refine ⟨hg.1.sublist (mapErase_sublist _ _), ?_⟩
  intro entry hentry
  exact hg.2 entry ((mapErase_sublist _ _).subset hentry)

theorem wellFormed_removeEdge {g g1 : Digraph VertexInfo EdgeInfo} {fromVertex toVertex : Int}
    (hg : g.WellFormed) (h : g.removeEdge fromVertex toVertex = .ok g1) : g1.WellFormed := by
  obtain ⟨_, _, _, rfl⟩ := removeEdge_ok h
  refine ⟨pairwise_of_keys_eq _ _ (mapUpdate_keys _ _ _) hg.1, ?_⟩
  intro entry hentry
  rcases mem_mapUpdate _ _ _ _ hentry with he | ⟨v, hv, he⟩
  · exact hg.2 entry he
  · subst he
    obtain ⟨hfrom, hnodup⟩ := hg.2 _ hv
    have hsub := removeEdgeLoop_sublist toVertex v.edges
    exact ⟨fun e h0 => hfrom e (hsub.subset h0), hnodup.sublist (hsub.map _)⟩

theorem wellFormed_of_built {g : Digraph VertexInfo EdgeInfo} (hg : Built g) : g.WellFormed := by
  induction hg with
  | empty => exact wellFormed_empty
  | addVertex vertex vinfo _ h ih => exact wellFormed_addVertex ih h
  | addEdge a b e _ h ih => exact wellFormed_addEdge ih h
  | removeVertex vertex _ h ih => exact wellFormed_removeVertex ih h
  | removeEdge a b _ h ih => exact wellFormed_removeEdge ih h

theorem edges_nodup_of_wellFormed {g : Digraph VertexInfo EdgeInfo} (hg : g.WellFormed) :
    g.edges.Nodup := by
  unfold Digraph.edges
  rw [List.nodup_flatMap]
  refine ⟨?_, ?_⟩
  · intro entry hentry
    have h2 := (hg.2 entry hentry).2
    have h3 : (entry.2.edges.map (fun e => (e.fromVertex, e.toVertex))).map Prod.snd
        = entry.2.edges.map (fun e => e.toVertex) := by
      simp [List.map_map, Function.comp_def]
    exact List.Nodup.of_map Prod.snd (h3 ▸ h2)
  · refine List.Pairwise.imp_of_mem ?_ hg.1
    intro a b ha hb hlt
    simp only [Function.onFun]
    intro x hxa hxb
    obtain ⟨e1, he1, hx1⟩ := List.mem_map.1 hxa
    obtain ⟨e2, he2, hx2⟩ := List.mem_map.1 hxb
    have h1 := (hg.2 a ha).1 e1 he1
    have h2 := (hg.2 b hb).1 e2 he2
    have h3 : e1.fromVertex = e2.fromVertex := by
      have := congrArg Prod.fst (hx1.trans hx2.symm)
      simpa using this
    omega

/-! ## The first loop of findShortestPaths -/

theorem initLoop_k_false (inf : Int) (m : StdMap (DigraphVertex VertexInfo EdgeInfo))
    (k : StdMap Bool) (d : StdMap Int)
    (hk : ∀ key v, mapAt k key = some v → v = false) :
    ∀ key v, mapAt (initLoop inf m (k, d)).1 key = some v → v = false := by
  induction m generalizing k d with
  | nil => simpa [initLoop] using hk
  | cons a rest ih =>
    obtain ⟨key0, v0⟩ := a
    simp only [initLoop]
    apply ih
    intro key v hv
    rw [mapAt_mapAssign] at hv
    by_cases h : key0 = key
    · simp only [h, if_true, Option.some.injEq] at hv
      exact hv.symm
    · simp only [h, if_false] at hv
      exact hk key v hv

theorem mapIndex_initLoop_k (inf : Int) (g : Digraph VertexInfo EdgeInfo) (key : Int) :
    (mapIndex false (initLoop inf g.map ([], [])).1 key).1 = false := by
  have h := initLoop_k_false inf g.map [] [] (by intro key v hv; simp [mapAt] at hv) key
  unfold mapIndex
  cases hm : mapAt (initLoop inf g.map ([], [])).1 key with
  | none => rfl
  | some v => exact h v hm

/-! ## removeVertex -/

/-- C1: `removeVertex(2)` on the graph with vertices 1, 2 and the edge 1 → 2
succeeds, and `edges()` of the graph it leaves still holds the pair (1, 2),
whose `to` component is the removed vertex: the edge is owned by vertex 1 and
`removeVertex` only touches the edge list of the vertex it removes. -/
theorem removeVertex_leaves_incoming_edge :
    Built graphOneEdge ∧
    graphOneEdge.removeVertex 2 = .ok graphAfterRemoveTarget ∧
    graphAfterRemoveTarget.edges = [(1, 2)] ∧
    2 ∉ graphAfterRemoveTarget.vertices :=
  ⟨graphOneEdge_built, rfl, rfl, by decide⟩

/-- C5: the graph obtained by `addVertex(1)`, `addVertex(2)`, `addEdge(1,2)`,
`removeVertex(2)` is built through successful public calls, its `edges()`
holds the pair (1, 2) and its `vertices()` does not hold 2. -/
theorem edge_to_absent_vertex_after_removeVertex :
    (Digraph.empty : Digraph Unit Int).calls
        [.addVertex 1 (), .addVertex 2 (), .addEdge 1 2 7, .removeVertex 2]
      = .ok graphAfterRemoveTarget ∧
    Built graphAfterRemoveTarget ∧
    (1, 2) ∈ graphAfterRemoveTarget.edges ∧
    graphAfterRemoveTarget.vertices = [1] :=
  ⟨rfl, graphAfterRemoveTarget_built, by decide, rfl⟩

/-! ## Moves -/

/-- C8 (as the claim states it, refuted): move-assigning the one-vertex graph
`graphSeven` (the source) into the two-vertex graph `graphTwoIsolated` leaves
the source with `vertexCount()` = 2 and `vertices()` = [1, 2], not empty. -/
theorem moveAssign_source_not_empty :
    (Digraph.moveAssign graphTwoIsolated graphSeven).2.vertexCount = 2 ∧
    (Digraph.moveAssign graphTwoIsolated graphSeven).2.vertices = [1, 2] :=
  ⟨rfl, rfl⟩

/-- C8 (amended): the move constructor hands the contents of the source to
the new graph and leaves the source with `vertexCount()` = 0,
`edgeCount()` = 0, `vertices()` and `edges()` empty; move assignment
exchanges the two graphs, so the destination holds what the source held and
the source holds what the destination held before. -/
theorem move_transfers_contents (dst src : Digraph VertexInfo EdgeInfo) :
    (Digraph.moveConstruct src).1 = src ∧
    (Digraph.moveConstruct src).2.vertexCount = 0 ∧
    (Digraph.moveConstruct src).2.edgeCount = 0 ∧
    (Digraph.moveConstruct src).2.vertices = [] ∧
    (Digraph.moveConstruct src).2.edges = [] ∧
    (Digraph.moveAssign dst src).1 = src ∧
    (Digraph.moveAssign dst src).2 = dst :=
  ⟨rfl, rfl, rfl, rfl, rfl, rfl, rfl⟩

/-! ## isStronglyConnected -/

/-- C3: `isStronglyConnected()` returns false on the graph with the single
vertex 1 and no edge, and on the graph with vertices 1, 2 and the edges
1 → 2 and 2 → 1, whatever depth is allowed to the traversal, although both
graphs are strongly connected; it returns true on the graph with vertices
1, 2 and the edges 2 → 1 and 2 → 2 only, in which vertex 2 cannot be reached
from vertex 1. -/
theorem isStronglyConnected_false_on_connected (fuel : Nat) :
    Built graphSingle ∧
    graphSingle.isStronglyConnected (fuel + 1) = .ok false ∧
    Built graphTwoCycle ∧
    graphTwoCycle.isStronglyConnected (fuel + 1) = .ok false ∧
    Built graphNoWayBack ∧
    graphNoWayBack.edges = [(2, 1), (2, 2)] ∧
    graphNoWayBack.isStronglyConnected (fuel + 1) = .ok true :=
  ⟨graphSingle_built, rfl, graphTwoCycle_built, rfl, graphNoWayBack_built, rfl, rfl⟩

/-! ## findShortestPaths -/

/-- C7: on the graph with vertices 1 and 2 and no edge, `findShortestPaths(1, w)`
reads `predecessor[1]` while `predecessor` has one element, for every weight
function and every value stored for `inf`; on the graph left by
`removeVertex(2)` after `addEdge(1,2)`, it ends in the `std::out_of_range` of
`map.at(2)`. -/
theorem findShortestPaths_fails (fuel : Nat) (inf : Int) (w : Int → Int) :
    Built graphTwoIsolated ∧
    graphTwoIsolated.findShortestPaths (fuel + 1) inf 1 w = .error .undefinedBehaviour ∧
    Built graphAfterRemoveTarget ∧
    graphAfterRemoveTarget.findShortestPaths (fuel + 2) inf 1 id = .error .outOfRange := by
  refine ⟨graphTwoIsolated_built, ?_, graphAfterRemoveTarget_built, ?_⟩
  · cases fuel <;> rfl
  · rfl

/-- C6: on the graph with vertices 1, 2 and the single edge 2 → 2 (weight 1),
`findShortestPaths(2, w)` returns the map 1 ↦ 2, 2 ↦ 2 for every value stored
for `inf`: vertex 1, which no path from 2 reaches, is not mapped to itself.
On the graph A, B, C, D of the claim (D = 4 without edges) the call from A
returns no map: it reads past the end of `predecessor`. -/
theorem findShortestPaths_unreached_not_self (fuel : Nat) (inf : Int) :
    Built graphLoopAtTwo ∧
    graphLoopAtTwo.edges = [(2, 2)] ∧
    graphLoopAtTwo.findShortestPaths (fuel + 2) inf 2 id = .ok [(1, 2), (2, 2)] ∧
    Built graphABCD ∧
    graphABCD.findShortestPaths (fuel + 3) inf 1 id = .error .undefinedBehaviour := by
  refine ⟨graphLoopAtTwo_built, rfl, ?_, graphABCD_built, ?_⟩
  · cases fuel <;> rfl
  · have hinit : initLoop inf graphABCD.map ([], []) =
        ([(1, false), (2, false), (3, false), (4, false)],
         [(1, inf), (2, inf), (3, inf), (4, inf)]) := rfl
    by_cases hb : inf < 1
    · have hc : inf < 5 := by omega
      cases fuel <;>
      simp [Digraph.findShortestPaths, hinit, graphABCD, mapAssign, pqPush, searchLoop, mapIndex,
        mapAt, relaxLoop, fitsInt, resultLoop, hb, hc]
    · by_cases hc : inf < 5 <;> cases fuel <;>
      simp [Digraph.findShortestPaths, hinit, graphABCD, mapAssign, pqPush, searchLoop, mapIndex,
        mapAt, relaxLoop, fitsInt, resultLoop, hb, hc]

/-! ## No parallel edges -/

/-- C10: in every graph obtained from the empty graph by successful calls of
`addVertex`, `addEdge`, `removeVertex` and `removeEdge`, `edges()` holds no
ordered pair (from, to) more than once. -/
theorem edges_nodup_of_built (g : Digraph VertexInfo EdgeInfo) (hg : Built g) :
    g.edges.Nodup :=
  edges_nodup_of_wellFormed (wellFormed_of_built hg)

/-- C10 at the graph in which vertex 2 was removed and added again while the
edge 1 → 2 stayed in the list of vertex 1. -/
theorem edges_nodup_of_built_witness : Built graphReAdded ∧ graphReAdded.edges.Nodup :=
  ⟨graphReAdded_built, edges_nodup_of_built graphReAdded graphReAdded_built⟩

/-! ## findShortestPaths on a start vertex that is not in the graph -/

/-- C9: when `startVertex` is not a key of the map, `findShortestPaths` ends
in the `std::out_of_range` thrown by `map.at(startVertex)` (for every weight
function, every value stored for `inf` and every positive budget of loop
turns); it does not end in a `DigraphException`. -/
theorem findShortestPaths_absent_start (g : Digraph VertexInfo EdgeInfo) (startVertex : Int)
    (fuel : Nat) (inf : Int) (edgeWeightFunc : EdgeInfo → Int)
    (h : mapCount g.map startVertex = 0) :
    g.findShortestPaths (fuel + 1) inf startVertex edgeWeightFunc = .error .outOfRange ∧
    ∀ reason, g.findShortestPaths (fuel + 1) inf startVertex edgeWeightFunc
      ≠ .error (.digraphException reason) := by
  have hres : g.findShortestPaths (fuel + 1) inf startVertex edgeWeightFunc
      = .error .outOfRange := by
    have hk := mapIndex_initLoop_k inf g startVertex
    have hat := mapAt_eq_none_of_count g.map startVertex h
    unfold Digraph.findShortestPaths
    generalize initLoop inf g.map ([], []) = kd at hk
    obtain ⟨k, d⟩ := kd
    simp only [pqPush, searchLoop]
    simp only at hk
    simp [hk, hat]
  refine ⟨hres, ?_⟩
  intro reason
  rw [hres]
  simp

/-- C9 at the graph with the single vertex 1 and the start vertex 5. -/
theorem findShortestPaths_absent_start_witness :
    mapCount graphSingle.map 5 = 0 ∧
    graphSingle.findShortestPaths 1 0 5 id = .error .outOfRange :=
  ⟨rfl, (findShortestPaths_absent_start graphSingle 5 0 0 id rfl).1⟩

/-! ## findShortestPaths on the three-vertex example -/

/-- C2: on the graph A = 1, B = 2, C = 3 with A → B of weight 1, B → C of
weight 1 and A → C of weight 5, `findShortestPaths(A, weight)` returns the map
A ↦ A, B ↦ A, C ↦ A when the value stored for `inf` is at most 0 (the
predecessor given for C is A, along the edge of weight 5, not B), and reads
past the end of `predecessor` for every other value. -/
theorem findShortestPaths_ABC (fuel : Nat) (inf : Int) :
    Built graphABC ∧
    graphABC.findShortestPaths (fuel + 3) inf 1 id =
      if inf ≤ 0 then .ok [(1, 1), (2, 1), (3, 1)] else .error .undefinedBehaviour := by
  refine ⟨graphABC_built, ?_⟩
  have hinit : initLoop inf graphABC.map ([], []) =
      ([(1, false), (2, false), (3, false)], [(1, inf), (2, inf), (3, inf)]) := rfl
  by_cases h0 : inf ≤ 0
  · have hb : inf < 1 := by omega
    have hc : inf < 5 := by omega
    cases fuel <;>
    simp [Digraph.findShortestPaths, hinit, graphABC, mapAssign, pqPush, searchLoop, mapIndex,
      mapAt, relaxLoop, fitsInt, resultLoop, h0, hb, hc]
  · by_cases h5 : inf < 5
    · have hb : ¬ inf < 1 := by omega
      cases fuel <;>
      simp [Digraph.findShortestPaths, hinit, graphABC, mapAssign, pqPush, searchLoop, mapIndex,
        mapAt, relaxLoop, fitsInt, resultLoop, h0, hb, h5]
    · have hb : ¬ inf < 1 := by omega
      cases fuel <;>
      simp [Digraph.findShortestPaths, hinit, graphABC, mapAssign, pqPush, searchLoop, mapIndex,
        mapAt, relaxLoop, fitsInt, resultLoop, h0, hb, h5]

/-! ## Vertex count -/

theorem length_mapInsert {β : Type} (m : StdMap β) (key : Int) (value : β)
    (h : mapCount m key = 0) : (mapInsert m key value).length = m.length + 1 := by
  induction m with
  | nil => rfl
  | cons b rest ih =>
    obtain ⟨k, v⟩ := b
    by_cases hk : k = key
    · simp [mapCount, hk] at h
    · simp only [mapCount, hk, if_false] at h
      by_cases h1 : key < k
      · simp [mapInsert, h1]
      · simp [mapInsert, h1, hk, ih h]

theorem length_mapErase {β : Type} (m : StdMap β) (key : Int)
    (h : mapCount m key ≠ 0) : (mapErase m key).length + 1 = m.length := by
  induction m with
  | nil => simp [mapCount] at h
  | cons b rest ih =>
    obtain ⟨k, v⟩ := b
    by_cases hk : k = key
    · simp [mapErase, hk]
    · simp only [mapCount, hk, if_false] at h
      simp [mapErase, hk, ih h]

theorem length_eq_of_keys_eq {β γ : Type} (m : StdMap β) (m2 : StdMap γ)
    (hk : m2.map Prod.fst = m.map Prod.fst) : m2.length = m.length := by
  simpa using congrArg List.length hk

theorem mapCount_eq_of_keys_eq {β γ : Type} (m : StdMap β) (m2 : StdMap γ) (key : Int)
    (hk : m2.map Prod.fst = m.map Prod.fst) : mapCount m2 key = mapCount m key := by
  induction m generalizing m2 with
  | nil =>
    cases m2 with
    | nil => rfl
    | cons b rest => simp at hk
  | cons a rest ih =>
    cases m2 with
    | nil => simp at hk
    | cons b rest2 =>
      obtain ⟨k, v⟩ := a
      obtain ⟨k2, v2⟩ := b
      simp only [List.map_cons, List.cons.injEq] at hk
      obtain ⟨h1, h2⟩ := hk
      subst h1
      simp [mapCount, ih rest2 h2]

theorem uintIncr_mod (n : Nat) : uintIncr (n % 2 ^ 32) = (n + 1) % 2 ^ 32 := by
  unfold uintIncr
  omega

theorem uintDecr_mod (n : Nat) : uintDecr ((n + 1) % 2 ^ 32) = n % 2 ^ 32 := by
  unfold uintDecr
  omega

theorem uintToInt_of_lt (n : Nat) (h : n < 2 ^ 31) : uintToInt (n % 2 ^ 32) = (n : Int) := by
  have h1 : n % 2 ^ 32 = n := Nat.mod_eq_of_lt (by omega)
  rw [h1]
  unfold uintToInt
  rw [if_pos h]

/-- The counter `vertexNumber` is the number of entries of the map, modulo
`2^32`. -/
theorem vertexNumber_of_built {g : Digraph VertexInfo EdgeInfo} (hg : Built g) :
    g.vertexNumber = g.map.length % 2 ^ 32 := by
  induction hg with
  | empty => rfl
  | addVertex vertex vinfo _ h ih =>
    obtain ⟨hc, rfl⟩ := addVertex_ok h
    simp only [ih, length_mapInsert _ _ _ hc, uintIncr_mod]
  | addEdge a b e _ h ih =>
    obtain ⟨_, _, _, rfl⟩ := addEdge_ok h
    simp only [ih, length_eq_of_keys_eq _ _ (mapUpdate_keys _ _ _)]
  | @removeVertex g0 _ vertex _ h ih =>
    obtain ⟨hc, _, rfl⟩ := removeVertex_ok h
    have h1 := length_mapErase g0.map vertex hc
    simp only [ih]
    rw [← h1, uintDecr_mod]
  | removeEdge a b _ h ih =>
    obtain ⟨_, _, _, rfl⟩ := removeEdge_ok h
    simp only [ih, length_eq_of_keys_eq _ _ (mapUpdate_keys _ _ _)]

theorem vertices_nodup_of_wellFormed {g : Digraph VertexInfo EdgeInfo} (hg : g.WellFormed) :
    g.vertices.Nodup := by
  unfold Digraph.vertices
  have h1 : (g.map.map Prod.fst).Pairwise (fun x y => x < y) := List.pairwise_map.2 hg.1
  exact h1.imp (fun h => ne_of_lt h)

/-- C11: in every graph obtained from the empty graph by successful calls of
`addVertex`, `addEdge`, `removeVertex` and `removeEdge`, `vertices()` holds no
identifier twice and, the number of vertices being one that `int` can hold
(below `2^31`), `vertexCount()` equals the length of `vertices()`. -/
theorem vertexCount_eq_length_vertices (g : Digraph VertexInfo EdgeInfo) (hg : Built g)
    (hfit : g.vertices.length < 2 ^ 31) :
    g.vertices.Nodup ∧ g.vertexCount = (g.vertices.length : Int) := by
  refine ⟨vertices_nodup_of_wellFormed (wellFormed_of_built hg), ?_⟩
  have hlen : g.vertices.length = g.map.length := by simp [Digraph.vertices]
  rw [hlen] at hfit ⊢
  unfold Digraph.vertexCount
  rw [vertexNumber_of_built hg]
  exact uintToInt_of_lt _ hfit

/-- C11 at the graph in which vertex 2 was removed and added again. -/
theorem vertexCount_eq_length_vertices_witness :
    Built graphReAdded ∧ graphReAdded.vertices.length < 2 ^ 31 ∧
    graphReAdded.vertices.Nodup ∧ graphReAdded.vertexCount = (graphReAdded.vertices.length : Int) :=
  ⟨graphReAdded_built, by decide,
    vertexCount_eq_length_vertices graphReAdded graphReAdded_built (by decide)⟩

/-! ## addVertex -/

theorem mapCount_mapInsert {β : Type} (m : StdMap β) (key key2 : Int) (value : β) :
    mapCount (mapInsert m key value) key2 = if key = key2 then 1 else mapCount m key2 := by
  induction m with
  | nil => simp [mapInsert, mapCount]
  | cons b rest ih =>
    obtain ⟨k, v⟩ := b
    by_cases h1 : key < k
    · simp [mapInsert, h1, mapCount]
    · by_cases h2 : k = key
      · subst h2
        by_cases h3 : k = key2 <;> simp [mapInsert, mapCount, h3]
      · simp only [mapInsert, h1, h2, if_false, mapCount, ih]
        by_cases h3 : k = key2
        · have h4 : ¬ key = key2 := fun h => h2 (h3.trans h.symm)
          simp [h3, h4]
        · simp [h3]

theorem mapAt_mapInsert {β : Type} (m : StdMap β) (key key2 : Int) (value : β)
    (h : mapCount m key = 0) :
    mapAt (mapInsert m key value) key2 = if key = key2 then some value else mapAt m key2 := by
  induction m with
  | nil => simp [mapInsert, mapAt]
  | cons b rest ih =>
    obtain ⟨k, v⟩ := b
    by_cases h2 : k = key
    · simp [mapCount, h2] at h
    · simp only [mapCount, h2, if_false] at h
      by_cases h1 : key < k
      · simp [mapInsert, h1, mapAt]
      · simp only [mapInsert, h1, h2, if_false, mapAt, ih h]
        by_cases h3 : k = key2
        · have h4 : ¬ key = key2 := fun h => h2 (h3.trans h.symm)
          simp [h3, h4]
        · simp [h3]

theorem uintToInt_uintIncr (n : Nat) (h : n + 1 < 2 ^ 31) :
    uintToInt (uintIncr n) = uintToInt n + 1 := by
  have h1 : (n + 1) % 2 ^ 32 = n + 1 := Nat.mod_eq_of_lt (by omega)
  have h2 : n < 2 ^ 31 := by omega
  unfold uintIncr
  rw [h1]
  unfold uintToInt
  rw [if_pos h, if_pos h2]
  push_cast
  rfl

/-- C14: `addVertex(id, p)` throws the `DigraphException` of a vertex that is
already there exactly when `id` is in `vertices()`; otherwise it succeeds and,
in the graph it leaves, `vertexInfo(id)` returns `p`, `edgeCount(id)` returns
0, `vertexInfo` of every other identifier is as before and (the new count
being one that `int` can hold) `vertexCount()` is one more than before. -/
theorem addVertex_spec (g : Digraph VertexInfo EdgeInfo) (id : Int) (p : VertexInfo)
    (hfit : g.vertexNumber + 1 < 2 ^ 31) :
    (g.addVertex id p = .error (.digraphException "This vertex is already in the graph!")
      ↔ id ∈ g.vertices) ∧
    (id ∉ g.vertices →
      ∃ g1, g.addVertex id p = .ok g1 ∧
        g1.vertexInfo id = .ok p ∧
        g1.edgeCountOf id = .ok 0 ∧
        g1.vertexCount = g.vertexCount + 1 ∧
        ∀ v, v ≠ id → g1.vertexInfo v = g.vertexInfo v) := by
  have hmem : id ∈ g.vertices ↔ mapCount g.map id ≠ 0 := (mapCount_pos_iff_mem g.map id).symm
  refine ⟨?_, ?_⟩
  · rw [hmem]
    unfold Digraph.addVertex
    by_cases hc : mapCount g.map id > 0
    · simp only [hc, if_true, true_iff]
      omega
    · simp only [hc, if_false]
      constructor
      · intro h
        cases h
      · intro h
        omega
  · intro hnot
    have hc : mapCount g.map id = 0 := by
      rw [hmem] at hnot
      exact not_not.1 hnot
    have hc2 : ¬ mapCount g.map id > 0 := by omega
    refine ⟨{ g with
        map := mapInsert g.map id { vinfo := p, edges := [] }
        vertexNumber := uintIncr g.vertexNumber },
      by simp only [Digraph.addVertex, hc2, if_false], ?_, ?_, ?_, ?_⟩
    · simp [Digraph.vertexInfo, mapCount_mapInsert, mapAt_mapInsert _ _ _ _ hc]
    · simp [Digraph.edgeCountOf, mapCount_mapInsert, mapAt_mapInsert _ _ _ _ hc]
    · simp only [Digraph.vertexCount]
      exact uintToInt_uintIncr _ hfit
    · intro v hv
      have hv2 : ¬ id = v := fun h => hv h.symm
      simp only [Digraph.vertexInfo, mapCount_mapInsert, mapAt_mapInsert _ _ _ _ hc, hv2,
        if_false]

/-- C14 at the graph with the single vertex 1: `addVertex(1, p)` throws,
`addVertex(2, p)` succeeds. -/
theorem addVertex_spec_witness :
    graphSingle.vertexNumber + 1 < 2 ^ 31 ∧
    (graphSingle.addVertex 1 () = .error (.digraphException "This vertex is already in the graph!")
      ↔ (1 : Int) ∈ graphSingle.vertices) ∧
    (∃ g1, graphSingle.addVertex 2 () = .ok g1 ∧
        g1.vertexInfo 2 = .ok () ∧
        g1.edgeCountOf 2 = .ok 0 ∧
        g1.vertexCount = graphSingle.vertexCount + 1 ∧
        ∀ v, v ≠ 2 → g1.vertexInfo v = graphSingle.vertexInfo v) :=
  ⟨by decide, (addVertex_spec graphSingle 1 () (by decide)).1,
    (addVertex_spec graphSingle 2 () (by decide)).2 (by decide)⟩

/-! ## Normal forms of the edge operations -/

theorem mapAt_ne_none_of_count {β : Type} (m : StdMap β) (key : Int)
    (h : mapCount m key ≠ 0) : ∃ v, mapAt m key = some v := by
  induction m with
  | nil => simp [mapCount] at h
  | cons b rest ih =>
    obtain ⟨k, v⟩ := b
    by_cases hk : k = key
    · exact ⟨v, by simp [mapAt, hk]⟩
    · simp only [mapCount, hk, if_false] at h
      obtain ⟨w, hw⟩ := ih h
      exact ⟨w, by simp [mapAt, hk, hw]⟩

theorem mem_of_mapAt {β : Type} (m : StdMap β) (key : Int) (v : β)
    (h : mapAt m key = some v) : (key, v) ∈ m := by
  induction m with
  | nil => simp [mapAt] at h
  | cons b rest ih =>
    obtain ⟨k, w⟩ := b
    by_cases hk : k = key
    · simp only [mapAt, hk, if_true, Option.some.injEq] at h
      simp [hk, h]
    · simp only [mapAt, hk, if_false] at h
      exact List.mem_cons_of_mem _ (ih h)

theorem mapAt_of_mem {β : Type} (m : StdMap β) (key : Int) (v : β)
    (hm : m.Pairwise (fun a b => a.1 < b.1)) (h : (key, v) ∈ m) : mapAt m key = some v := by
  induction m with
  | nil => simp at h
  | cons b rest ih =>
    obtain ⟨k, w⟩ := b
    rw [List.pairwise_cons] at hm
    rcases List.mem_cons.1 h with h | h
    · have h1 : k = key := by simpa using (congrArg Prod.fst h).symm
      have h2 : w = v := by simpa using (congrArg Prod.snd h).symm
      simp [mapAt, h1, h2]
    · have hlt := hm.1 _ h
      have hk : ¬ k = key := by
        simp only at hlt
        omega
      simp only [mapAt, hk, if_false]
      exact ih hm.2 h

theorem mapAt_mapUpdate {β : Type} (f : β → β) (m : StdMap β) (key key2 : Int) :
    mapAt (mapUpdate f m key) key2
      = if key = key2 then (mapAt m key).map f else mapAt m key2 := by
  induction m with
  | nil => simp [mapUpdate, mapAt]
  | cons b rest ih =>
    obtain ⟨k, v⟩ := b
    by_cases hk : k = key
    · subst hk
      by_cases h2 : k = key2 <;> simp [mapUpdate, mapAt, h2]
    · simp only [mapUpdate, hk, if_false, mapAt, ih]
      by_cases h2 : k = key2
      · have h3 : ¬ key = key2 := fun h => hk (h2.trans h.symm)
        simp [h2, h3]
      · by_cases h3 : key = key2 <;> simp [h2, h3, hk]

theorem addEdge_eq (g : Digraph VertexInfo EdgeInfo) (a b : Int) (p : EdgeInfo) :
    g.addEdge a b p =
      if mapCount g.map a = 0 ∨ mapCount g.map b = 0 then
        .error (.digraphException "Given verticies are not exist!")
      else if (a, b) ∈ edgesOfLoop a g.map then
        .error (.digraphException "Edge is already in the graph")
      else
        .ok { g with
          map := mapUpdate (fun v => { v with edges := v.edges ++ [⟨a, b, p⟩] }) g.map a
          edgeNumber := uintIncr g.edgeNumber } := by
  unfold Digraph.addEdge
  by_cases hc : mapCount g.map a = 0 ∨ mapCount g.map b = 0
  · simp only [hc, if_true]
  · have hc1 : mapCount g.map a ≠ 0 := fun h0 => hc (Or.inl h0)
    obtain ⟨v, hv⟩ := mapAt_ne_none_of_count g.map a hc1
    simp only [hc, if_false, Digraph.edgesOf, hc1, hv]

theorem removeEdge_eq (g : Digraph VertexInfo EdgeInfo) (a b : Int) :
    g.removeEdge a b =
      if mapCount g.map a = 0 ∨ mapCount g.map b = 0 then
        .error (.digraphException "Either fromVertex, or toVertex does not exist in graph!")
      else if (a, b) ∉ edgesOfLoop a g.map then
        .error (.digraphException "Edge does not exist in the graph")
      else
        .ok { g with
          map := mapUpdate (fun v => { v with edges := removeEdgeLoop b v.edges }) g.map a
          edgeNumber := uintDecr g.edgeNumber } := by
  unfold Digraph.removeEdge
  by_cases hc : mapCount g.map a = 0 ∨ mapCount g.map b = 0
  · simp only [hc, if_true]
  · have hc1 : mapCount g.map a ≠ 0 := fun h0 => hc (Or.inl h0)
    obtain ⟨v, hv⟩ := mapAt_ne_none_of_count g.map a hc1
    simp only [hc, if_false, Digraph.edgesOf, hc1, hv]

theorem edgeInfo_eq (dflt : EdgeInfo) (g : Digraph VertexInfo EdgeInfo) (a b : Int)
    (v : DigraphVertex VertexInfo EdgeInfo) (hv : mapAt g.map a = some v) :
    g.edgeInfo dflt a b =
      if mapCount g.map a = 0 ∨ mapCount g.map b = 0 then
        .error (.digraphException "No appropriate vertex have found!")
      else if (a, b) ∉ edgesOfLoop a g.map then
        .error (.digraphException "There is no edge between them!")
      else
        .ok (edgeInfoLoop b v.edges dflt) := by
  unfold Digraph.edgeInfo
  by_cases hc : mapCount g.map a = 0 ∨ mapCount g.map b = 0
  · simp only [hc, if_true]
  · have hc1 : mapCount g.map a ≠ 0 := fun h0 => hc (Or.inl h0)
    simp only [hc, if_false, Digraph.edgesOf, hc1, hv]

/-- For a well-formed map, `edges(vertex)` lists the pairs of `edges()` whose
first component is `vertex`, in the same order. -/
theorem edgesOfLoop_eq_filter (vertex : Int) (m : StdMap (DigraphVertex VertexInfo EdgeInfo))
    (hm : ∀ entry ∈ m, ∀ e ∈ entry.2.edges, e.fromVertex = entry.1) :
    edgesOfLoop vertex m
      = (m.flatMap (fun entry => entry.2.edges.map (fun e => (e.fromVertex, e.toVertex)))).filter
          (fun pair => decide (pair.1 = vertex)) := by
  induction m with
  | nil => rfl
  | cons b rest ih =>
    obtain ⟨k, v⟩ := b
    have hrest := ih (fun entry he => hm entry (List.mem_cons_of_mem _ he))
    have hhead : ∀ e ∈ v.edges, e.fromVertex = k := hm (k, v) (List.mem_cons_self _ _)
    simp only [List.flatMap_cons, List.filter_append]
    by_cases hk : k = vertex
    · subst hk
      simp only [edgesOfLoop, ne_eq, not_true_eq_false, if_false, hrest]
      congr 1
      rw [List.filter_eq_self.2]
      · exact List.map_congr_left (fun e he => by simp [hhead e he])
      · intro pair hp
        obtain ⟨e, he, rfl⟩ := List.mem_map.1 hp
        simp [hhead e he]
    · have h0 : List.filter (fun pair => decide (pair.1 = vertex))
          (List.map (fun e => (e.fromVertex, e.toVertex)) v.edges) = [] := by
        apply List.filter_eq_nil_iff.2
        intro pair hp
        obtain ⟨e, he, rfl⟩ := List.mem_map.1 hp
        simp [hhead e he, hk]
      rw [h0, List.nil_append, ← hrest]
      simp only [edgesOfLoop, ne_eq, hk, not_false_eq_true, if_true]

theorem mem_edgesOfLoop_iff {g : Digraph VertexInfo EdgeInfo} (hg : g.WellFormed) (a b : Int) :
    (a, b) ∈ edgesOfLoop a g.map ↔ (a, b) ∈ g.edges := by
  rw [edgesOfLoop_eq_filter a g.map (fun entry he => (hg.2 entry he).1)]
  simp [Digraph.edges]

/-! ## addEdge -/

theorem edgeInfoLoop_append_match (b : Int) (l : List (DigraphEdge EdgeInfo))
    (e : DigraphEdge EdgeInfo) (x : EdgeInfo) (he : e.toVertex = b) :
    edgeInfoLoop b (l ++ [e]) x = e.einfo := by
  induction l generalizing x with
  | nil => simp [edgeInfoLoop, he]
  | cons c rest ih =>
    by_cases hc : c.toVertex = b
    · simp only [List.cons_append, edgeInfoLoop, hc, if_true]
      exact ih _
    · simp only [List.cons_append, edgeInfoLoop, hc, if_false]
      exact ih _

theorem mapCount_mapUpdate {β : Type} (f : β → β) (m : StdMap β) (key key2 : Int) :
    mapCount (mapUpdate f m key) key2 = mapCount m key2 :=
  mapCount_eq_of_keys_eq _ _ _ (mapUpdate_keys f m key)

/-- C13: on a graph built through the public operations, `addEdge(a, b, p)`
throws the `DigraphException` of an unknown vertex exactly when `a` or `b` is
not in `vertices()`, throws the one of an edge already there exactly when both
are vertices and `(a, b)` is in `edges()`, and otherwise succeeds; in the graph
it leaves, `edgeInfo(a, b)` returns `p`, `edgeCount()` is one more than before
(the new count being one that `int` can hold) and `addEdge(a, b, p)` throws
the exception of an edge already there. -/
theorem addEdge_spec (dflt : EdgeInfo) (g : Digraph VertexInfo EdgeInfo) (a b : Int)
    (p : EdgeInfo) (hg : Built g) (hfit : g.edgeNumber + 1 < 2 ^ 31) :
    (g.addEdge a b p = .error (.digraphException "Given verticies are not exist!")
      ↔ (a ∉ g.vertices ∨ b ∉ g.vertices)) ∧
    (g.addEdge a b p = .error (.digraphException "Edge is already in the graph")
      ↔ (a ∈ g.vertices ∧ b ∈ g.vertices ∧ (a, b) ∈ g.edges)) ∧
    (a ∈ g.vertices → b ∈ g.vertices → (a, b) ∉ g.edges →
      ∃ g1, g.addEdge a b p = .ok g1 ∧
        g1.edgeInfo dflt a b = .ok p ∧
        g1.edgeCount = g.edgeCount + 1 ∧
        g1.addEdge a b p = .error (.digraphException "Edge is already in the graph")) := by
  have hwf := wellFormed_of_built hg
  have hma : a ∈ g.vertices ↔ mapCount g.map a ≠ 0 := (mapCount_pos_iff_mem g.map a).symm
  have hmb : b ∈ g.vertices ↔ mapCount g.map b ≠ 0 := (mapCount_pos_iff_mem g.map b).symm
  have hme := mem_edgesOfLoop_iff hwf a b
  rw [hma, hmb, ← hme, addEdge_eq]
  refine ⟨?_, ?_, ?_⟩
  · by_cases hc : mapCount g.map a = 0 ∨ mapCount g.map b = 0
    · simp only [hc, if_true, true_iff]
      rcases hc with h | h
      · exact Or.inl (by simp [h])
      · exact Or.inr (by simp [h])
    · simp only [hc, if_false]
      have h1 : ¬ (¬ mapCount g.map a ≠ 0 ∨ ¬ mapCount g.map b ≠ 0) := by
        intro h
        apply hc
        rcases h with h | h
        · exact Or.inl (not_not.1 h)
        · exact Or.inr (not_not.1 h)
      by_cases hd : (a, b) ∈ edgesOfLoop a g.map
      · simp only [hd, if_true, h1, iff_false]
        intro h
        injection h with h
        injection h with h
        exact absurd h (by decide)
      · simp only [hd, if_false, h1, iff_false]
        intro h
        cases h
  · by_cases hc : mapCount g.map a = 0 ∨ mapCount g.map b = 0
    · simp only [hc, if_true]
      constructor
      · intro h
        injection h with h
        injection h with h
        exact absurd h (by decide)
      · rintro ⟨h1, h2, _⟩
        rcases hc with h | h
        · exact absurd h h1
        · exact absurd h h2
    · simp only [hc, if_false]
      have hc1 : mapCount g.map a ≠ 0 := fun h0 => hc (Or.inl h0)
      have hc2 : mapCount g.map b ≠ 0 := fun h0 => hc (Or.inr h0)
      by_cases hd : (a, b) ∈ edgesOfLoop a g.map
      · simp only [hd, if_true, true_iff]
        exact ⟨hc1, hc2, trivial⟩
      · simp only [hd, if_false]
        constructor
        · intro h
          cases h
        · rintro ⟨_, _, h⟩
          exact absurd h (by simp)
  · intro hc1 hc2 hd
    have hc : ¬ (mapCount g.map a = 0 ∨ mapCount g.map b = 0) := by
      rintro (h | h)
      · exact hc1 h
      · exact hc2 h
    obtain ⟨v, hv⟩ := mapAt_ne_none_of_count g.map a hc1
    refine ⟨{ g with
        map := mapUpdate (fun v => { v with edges := v.edges ++ [⟨a, b, p⟩] }) g.map a
        edgeNumber := uintIncr g.edgeNumber }, by simp only [hc, hd, if_false], ?_, ?_, ?_⟩
    · have hv1 : mapAt (mapUpdate (fun v => { v with edges := v.edges ++ [⟨a, b, p⟩] }) g.map a) a
          = some { v with edges := v.edges ++ [⟨a, b, p⟩] } := by
        simp [mapAt_mapUpdate, hv]
      have hin : (a, b) ∈ edgesOfLoop a
          (mapUpdate (fun v => { v with edges := v.edges ++ [⟨a, b, p⟩] }) g.map a) :=
        mem_edgesOfLoop a _ _ ⟨a, b, p⟩ (mem_of_mapAt _ _ _ hv1) (by simp)
      rw [edgeInfo_eq dflt _ a b _ hv1]
      simp only [mapCount_mapUpdate, hc, if_false, hin, not_true_eq_false]
      rw [edgeInfoLoop_append_match b v.edges ⟨a, b, p⟩ dflt rfl]
    · simp only [Digraph.edgeCount]
      exact uintToInt_uintIncr _ hfit
    · have hv1 : mapAt (mapUpdate (fun v => { v with edges := v.edges ++ [⟨a, b, p⟩] }) g.map a) a
          = some { v with edges := v.edges ++ [⟨a, b, p⟩] } := by
        simp [mapAt_mapUpdate, hv]
      have hin : (a, b) ∈ edgesOfLoop a
          (mapUpdate (fun v => { v with edges := v.edges ++ [⟨a, b, p⟩] }) g.map a) :=
        mem_edgesOfLoop a _ _ ⟨a, b, p⟩ (mem_of_mapAt _ _ _ hv1) (by simp)
      rw [addEdge_eq]
      simp only [mapCount_mapUpdate, hc, if_false, hin, if_true]

/-- C13 at the graph with vertices 1 and 2 and the edge 1 → 2: `addEdge(1, 3, p)`
names an absent vertex, `addEdge(1, 2, p)` an edge that is there, and
`addEdge(2, 1, p)` succeeds. -/
theorem addEdge_spec_witness :
    Built graphOneEdge ∧ graphOneEdge.edgeNumber + 1 < 2 ^ 31 ∧
    graphOneEdge.addEdge 1 3 4 = .error (.digraphException "Given verticies are not exist!") ∧
    graphOneEdge.addEdge 1 2 4 = .error (.digraphException "Edge is already in the graph") ∧
    (∃ g1, graphOneEdge.addEdge 2 1 4 = .ok g1 ∧
        g1.edgeInfo 0 2 1 = .ok 4 ∧
        g1.edgeCount = graphOneEdge.edgeCount + 1 ∧
        g1.addEdge 2 1 4 = .error (.digraphException "Edge is already in the graph")) :=
  ⟨graphOneEdge_built, by decide,
    (addEdge_spec 0 graphOneEdge 1 3 4 graphOneEdge_built (by decide)).1.2 (Or.inr (by decide)),
    (addEdge_spec 0 graphOneEdge 1 2 4 graphOneEdge_built (by decide)).2.1.2
      ⟨by decide, by decide, by decide⟩,
    (addEdge_spec 0 graphOneEdge 2 1 4 graphOneEdge_built (by decide)).2.2
      (by decide) (by decide) (by decide)⟩

/-! ## edgeInfo -/

theorem exists_of_mem_edgesOfLoop (a b : Int) (m : StdMap (DigraphVertex VertexInfo EdgeInfo))
    (h : (a, b) ∈ edgesOfLoop a m) : ∃ v, (a, v) ∈ m ∧ ∃ e ∈ v.edges, e.toVertex = b := by
  induction m with
  | nil => simp [edgesOfLoop] at h
  | cons c rest ih =>
    obtain ⟨k, w⟩ := c
    by_cases hk : k = a
    · subst hk
      simp only [edgesOfLoop, ne_eq, not_true_eq_false, if_false, List.mem_append] at h
      rcases h with h | h
      · obtain ⟨e, he, hpair⟩ := List.mem_map.1 h
        exact ⟨w, List.mem_cons_self _ _, e, he, by simpa using hpair⟩
      · obtain ⟨v, hv, hrest⟩ := ih h
        exact ⟨v, List.mem_cons_of_mem _ hv, hrest⟩
    · simp only [edgesOfLoop, ne_eq, hk, not_false_eq_true, if_true] at h
      obtain ⟨v, hv, hrest⟩ := ih h
      exact ⟨v, List.mem_cons_of_mem _ hv, hrest⟩

theorem edgeInfoLoop_no_match (b : Int) (l : List (DigraphEdge EdgeInfo)) (x : EdgeInfo)
    (h : b ∉ l.map (fun e => e.toVertex)) : edgeInfoLoop b l x = x := by
  induction l generalizing x with
  | nil => rfl
  | cons c rest ih =>
    simp only [List.map_cons, List.mem_cons, not_or] at h
    have hc : ¬ c.toVertex = b := fun h0 => h.1 h0.symm
    simp only [edgeInfoLoop, hc, if_false]
    exact ih x h.2

theorem edgeInfoLoop_of_mem (b : Int) (l : List (DigraphEdge EdgeInfo)) (x : EdgeInfo)
    (e : DigraphEdge EdgeInfo) (hl : (l.map (fun e => e.toVertex)).Nodup)
    (he : e ∈ l) (heb : e.toVertex = b) : edgeInfoLoop b l x = e.einfo := by
  induction l generalizing x with
  | nil => simp at he
  | cons c rest ih =>
    simp only [List.map_cons, List.nodup_cons] at hl
    by_cases hc : c.toVertex = b
    · simp only [edgeInfoLoop, hc, if_true]
      have hce : e = c := by
        rcases List.mem_cons.1 he with h | h
        · exact h
        · exact absurd (List.mem_map.2 ⟨e, h, heb.trans hc.symm⟩) hl.1
      rw [hce]
      exact edgeInfoLoop_no_match b rest c.einfo (hc ▸ hl.1)
    · simp only [edgeInfoLoop, hc, if_false]
      rcases List.mem_cons.1 he with h | h
      · exact absurd (h ▸ heb) hc
      · exact ih x hl.2 h

/-- C16: on a graph built through the public operations, `edgeInfo(a, b)`
throws the `DigraphException` of an unknown vertex exactly when `a` or `b` is
not in `vertices()`, throws the one of a missing edge (a different reason)
exactly when both are vertices and `(a, b)` is not in `edges()`, and otherwise
returns the payload of the edge from `a` to `b` kept in the list of `a`,
whatever the default-constructed `EdgeInfo` is. -/
theorem edgeInfo_spec (dflt : EdgeInfo) (g : Digraph VertexInfo EdgeInfo) (a b : Int)
    (hg : Built g) :
    (g.edgeInfo dflt a b = .error (.digraphException "No appropriate vertex have found!")
      ↔ (a ∉ g.vertices ∨ b ∉ g.vertices)) ∧
    (g.edgeInfo dflt a b = .error (.digraphException "There is no edge between them!")
      ↔ (a ∈ g.vertices ∧ b ∈ g.vertices ∧ (a, b) ∉ g.edges)) ∧
    (a ∈ g.vertices → b ∈ g.vertices → (a, b) ∈ g.edges →
      ∃ v e, mapAt g.map a = some v ∧ e ∈ v.edges ∧ e.fromVertex = a ∧ e.toVertex = b ∧
        ∀ other : EdgeInfo, g.edgeInfo other a b = .ok e.einfo) ∧
    Failure.digraphException "No appropriate vertex have found!"
      ≠ Failure.digraphException "There is no edge between them!" := by
  have hwf := wellFormed_of_built hg
  have hma : a ∈ g.vertices ↔ mapCount g.map a ≠ 0 := (mapCount_pos_iff_mem g.map a).symm
  have hmb : b ∈ g.vertices ↔ mapCount g.map b ≠ 0 := (mapCount_pos_iff_mem g.map b).symm
  have hme := mem_edgesOfLoop_iff hwf a b
  rw [hma, hmb, ← hme]
  have hne : Failure.digraphException "No appropriate vertex have found!"
      ≠ Failure.digraphException "There is no edge between them!" := by decide
  refine ⟨?_, ?_, ?_, hne⟩
  · by_cases hc : mapCount g.map a = 0 ∨ mapCount g.map b = 0
    · have h1 : g.edgeInfo dflt a b
          = .error (.digraphException "No appropriate vertex have found!") := by
        simp only [Digraph.edgeInfo, hc, if_true]
      simp only [h1, true_iff]
      rcases hc with h | h
      · exact Or.inl (by simp [h])
      · exact Or.inr (by simp [h])
    · have hc1 : mapCount g.map a ≠ 0 := fun h0 => hc (Or.inl h0)
      have hc2 : mapCount g.map b ≠ 0 := fun h0 => hc (Or.inr h0)
      obtain ⟨v, hv⟩ := mapAt_ne_none_of_count g.map a hc1
      rw [edgeInfo_eq dflt g a b v hv]
      have h1 : ¬ (¬ mapCount g.map a ≠ 0 ∨ ¬ mapCount g.map b ≠ 0) := by
        rintro (h | h)
        · exact h hc1
        · exact h hc2
      simp only [hc, if_false, h1, iff_false]
      by_cases hd : (a, b) ∉ edgesOfLoop a g.map
      · simp only [hd, not_false_eq_true, if_true]
        intro h
        injection h with h
        exact hne h.symm
      · simp only [hd, if_false]
        intro h
        cases h
  · by_cases hc : mapCount g.map a = 0 ∨ mapCount g.map b = 0
    · have h1 : g.edgeInfo dflt a b
          = .error (.digraphException "No appropriate vertex have found!") := by
        simp only [Digraph.edgeInfo, hc, if_true]
      rw [h1]
      constructor
      · intro h
        injection h with h
        exact absurd h hne
      · rintro ⟨h2, h3, _⟩
        rcases hc with h | h
        · exact absurd h h2
        · exact absurd h h3
    · have hc1 : mapCount g.map a ≠ 0 := fun h0 => hc (Or.inl h0)
      have hc2 : mapCount g.map b ≠ 0 := fun h0 => hc (Or.inr h0)
      obtain ⟨v, hv⟩ := mapAt_ne_none_of_count g.map a hc1
      rw [edgeInfo_eq dflt g a b v hv]
      simp only [hc, if_false]
      by_cases hd : (a, b) ∉ edgesOfLoop a g.map
      · simp only [hd, not_false_eq_true, if_true, true_iff]
        exact ⟨hc1, hc2, trivial⟩
      · simp only [hd, if_false]
        constructor
        · intro h
          cases h
        · rintro ⟨_, _, h⟩
          exact h.elim
  · intro hc1 hc2 hd
    have hc : ¬ (mapCount g.map a = 0 ∨ mapCount g.map b = 0) := by
      rintro (h | h)
      · exact hc1 h
      · exact hc2 h
    obtain ⟨v, hv, e, he, heb⟩ := exists_of_mem_edgesOfLoop a b g.map hd
    have hat := mapAt_of_mem g.map a v hwf.1 hv
    have hok := hwf.2 (a, v) hv
    refine ⟨v, e, hat, he, hok.1 e he, heb, ?_⟩
    intro other
    rw [edgeInfo_eq other g a b v hat]
    simp only [hc, if_false, hd, not_true_eq_false]
    rw [edgeInfoLoop_of_mem b v.edges other e hok.2 he heb]

/-- C16 at the graph with vertices 1 and 2 and the edge 1 → 2 of payload 7:
`edgeInfo(1, 3)` names an absent vertex, `edgeInfo(2, 1)` a missing edge, and
`edgeInfo(1, 2)` returns 7 for every default value. -/
theorem edgeInfo_spec_witness :
    Built graphOneEdge ∧
    graphOneEdge.edgeInfo 0 1 3 = .error (.digraphException "No appropriate vertex have found!") ∧
    graphOneEdge.edgeInfo 0 2 1 = .error (.digraphException "There is no edge between them!") ∧
    (∃ v e, mapAt graphOneEdge.map 1 = some v ∧ e ∈ v.edges ∧ e.fromVertex = 1 ∧
        e.toVertex = 2 ∧ ∀ other : Int, graphOneEdge.edgeInfo other 1 2 = .ok e.einfo) :=
  ⟨graphOneEdge_built,
    (edgeInfo_spec 0 graphOneEdge 1 3 graphOneEdge_built).1.2 (Or.inr (by decide)),
    (edgeInfo_spec 0 graphOneEdge 2 1 graphOneEdge_built).2.1.2
      ⟨by decide, by decide, by decide⟩,
    (edgeInfo_spec 0 graphOneEdge 1 2 graphOneEdge_built).2.2.1
      (by decide) (by decide) (by decide)⟩

/-! ## edges(vertex) and edgeCount(vertex) -/

theorem edgesOfLoop_nil_of_count (vertex : Int) (m : StdMap (DigraphVertex VertexInfo EdgeInfo))
    (h : mapCount m vertex = 0) : edgesOfLoop vertex m = [] := by
  induction m with
  | nil => rfl
  | cons c rest ih =>
    obtain ⟨k, w⟩ := c
    by_cases hk : k = vertex
    · simp [mapCount, hk] at h
    · simp only [mapCount, hk, if_false] at h
      simp only [edgesOfLoop, ne_eq, hk, not_false_eq_true, if_true]
      exact ih h

theorem mapCount_zero_of_lt {β : Type} (m : StdMap β) (key : Int)
    (h : ∀ entry ∈ m, key < entry.1) : mapCount m key = 0 := by
  induction m with
  | nil => rfl
  | cons c rest ih =>
    obtain ⟨k, w⟩ := c
    have h1 := h (k, w) (List.mem_cons_self _ _)
    have hk : ¬ k = key := by
      simp only at h1
      omega
    simp only [mapCount, hk, if_false]
    exact ih (fun entry he => h entry (List.mem_cons_of_mem _ he))

theorem edgesOfLoop_of_mapAt (vertex : Int) (m : StdMap (DigraphVertex VertexInfo EdgeInfo))
    (x : DigraphVertex VertexInfo EdgeInfo) (hm : m.Pairwise (fun a b => a.1 < b.1))
    (hx : mapAt m vertex = some x) :
    edgesOfLoop vertex m = x.edges.map (fun e => (vertex, e.toVertex)) := by
  induction m with
  | nil => simp [mapAt] at hx
  | cons c rest ih =>
    obtain ⟨k, w⟩ := c
    rw [List.pairwise_cons] at hm
    by_cases hk : k = vertex
    · subst hk
      simp only [mapAt, if_true, Option.some.injEq] at hx
      subst hx
      simp only [edgesOfLoop, ne_eq, not_true_eq_false, if_false]
      rw [edgesOfLoop_nil_of_count k rest (mapCount_zero_of_lt rest k hm.1), List.append_nil]
    · simp only [mapAt, hk, if_false] at hx
      simp only [edgesOfLoop, ne_eq, hk, not_false_eq_true, if_true]
      exact ih hm.2 hx

theorem foldl_counter (l : List (DigraphEdge EdgeInfo)) (n : Int) :
    l.foldl (fun counter _ => counter + 1) n = n + (l.length : Int) := by
  induction l generalizing n with
  | nil => simp
  | cons e rest ih =>
    simp only [List.foldl_cons, ih, List.length_cons]
    push_cast
    omega

/-- C17: on a graph built through the public operations, `edges(v)` and
`edgeCount(v)` throw the `DigraphException` of an unknown vertex exactly when
`v` is not in `vertices()`; otherwise `edges(v)` is the sub-sequence of
`edges()` of the pairs whose first component is `v`, and `edgeCount(v)` is
its length. -/
theorem edgesOf_spec (g : Digraph VertexInfo EdgeInfo) (v : Int) (hg : Built g) :
    (g.edgesOf v = .error (.digraphException "No appropriate vertex found!")
      ↔ v ∉ g.vertices) ∧
    (g.edgeCountOf v = .error (.digraphException "The vertex is not valid!")
      ↔ v ∉ g.vertices) ∧
    (v ∈ g.vertices →
      g.edgesOf v = .ok (g.edges.filter (fun pair => decide (pair.1 = v))) ∧
      (∀ pair ∈ g.edges.filter (fun pair => decide (pair.1 = v)), pair.1 = v) ∧
      g.edgeCountOf v
        = .ok ((g.edges.filter (fun pair => decide (pair.1 = v))).length : Int)) := by
  have hwf := wellFormed_of_built hg
  have hmv : v ∈ g.vertices ↔ mapCount g.map v ≠ 0 := (mapCount_pos_iff_mem g.map v).symm
  have hfilter := edgesOfLoop_eq_filter v g.map (fun entry he => (hwf.2 entry he).1)
  rw [hmv]
  refine ⟨?_, ?_, ?_⟩
  · unfold Digraph.edgesOf
    by_cases hc : mapCount g.map v = 0
    · simp [hc]
    · simp only [hc, if_false, ne_eq, not_false_eq_true, not_true_eq_false, iff_false]
      intro h
      cases h
  · unfold Digraph.edgeCountOf
    by_cases hc : mapCount g.map v = 0
    · simp [hc]
    · obtain ⟨x, hx⟩ := mapAt_ne_none_of_count g.map v hc
      simp only [hc, if_false, hx, ne_eq, not_false_eq_true, not_true_eq_false, iff_false]
      intro h
      cases h
  · intro hc
    obtain ⟨x, hx⟩ := mapAt_ne_none_of_count g.map v hc
    have hlen : (g.edges.filter (fun pair => decide (pair.1 = v))).length = x.edges.length := by
      unfold Digraph.edges
      rw [← hfilter, edgesOfLoop_of_mapAt v g.map x hwf.1 hx, List.length_map]
    refine ⟨?_, ?_, ?_⟩
    · simp only [Digraph.edgesOf, hc, if_false, hfilter, Digraph.edges]
    · intro pair hp
      simpa using (List.mem_filter.1 hp).2
    · simp only [Digraph.edgeCountOf, hc, if_false, hx, foldl_counter, hlen, zero_add]

/-- C17 at the three-vertex graph A, B, C: `edges(4)` and `edgeCount(4)` throw,
`edges(1)` is the part of `edges()` that starts at 1 and `edgeCount(1)` its
length. -/
theorem edgesOf_spec_witness :
    Built graphABC ∧
    graphABC.edgesOf 4 = .error (.digraphException "No appropriate vertex found!") ∧
    graphABC.edgeCountOf 4 = .error (.digraphException "The vertex is not valid!") ∧
    graphABC.edgesOf 1 = .ok (graphABC.edges.filter (fun pair => decide (pair.1 = 1))) ∧
    (∀ pair ∈ graphABC.edges.filter (fun pair => decide (pair.1 = 1)), pair.1 = 1) ∧
    graphABC.edgeCountOf 1
      = .ok ((graphABC.edges.filter (fun pair => decide (pair.1 = 1))).length : Int) :=
  ⟨graphABC_built,
    (edgesOf_spec graphABC 4 graphABC_built).1.2 (by decide),
    (edgesOf_spec graphABC 4 graphABC_built).2.1.2 (by decide),
    (edgesOf_spec graphABC 1 graphABC_built).2.2 (by decide)⟩

/-! ## removeEdge -/

theorem removeEdgeLoop_pairs (a b : Int) (l : List (DigraphEdge EdgeInfo))
    (hl : ∀ e ∈ l, e.fromVertex = a) :
    (removeEdgeLoop b l).map (fun e => (e.fromVertex, e.toVertex))
      = (l.map (fun e => (e.fromVertex, e.toVertex))).erase (a, b) := by
  induction l with
  | nil => rfl
  | cons e rest ih =>
    have he : e.fromVertex = a := hl e (List.mem_cons_self _ _)
    have hrest := ih (fun x hx => hl x (List.mem_cons_of_mem _ hx))
    by_cases hb : e.toVertex = b
    · simp only [removeEdgeLoop, hb, if_true, List.map_cons, he, List.erase_cons_head]
    · have hne : ¬ ((e.fromVertex, e.toVertex) == (a, b)) = true := by
        simp [he, hb]
      simp only [removeEdgeLoop, hb, if_false, List.map_cons, List.erase_cons_tail hne, hrest]

theorem not_mem_pairs_of_key_ne (a b : Int) (m : StdMap (DigraphVertex VertexInfo EdgeInfo))
    (hm : ∀ entry ∈ m, ∀ e ∈ entry.2.edges, e.fromVertex = entry.1)
    (hk : ∀ entry ∈ m, entry.1 ≠ a) :
    (a, b) ∉ m.flatMap (fun entry => entry.2.edges.map (fun e => (e.fromVertex, e.toVertex))) := by
  intro h
  obtain ⟨entry, hentry, hp⟩ := List.mem_flatMap.1 h
  obtain ⟨e, he, hpair⟩ := List.mem_map.1 hp
  have h1 := hm entry hentry e he
  have h2 : e.fromVertex = a := by simpa using congrArg Prod.fst hpair
  exact hk entry hentry (h1.symm.trans h2)

theorem edges_mapUpdate_removeEdgeLoop (a b : Int)
    (m : StdMap (DigraphVertex VertexInfo EdgeInfo))
    (hp : m.Pairwise (fun x y => x.1 < y.1))
    (hm : ∀ entry ∈ m, ∀ e ∈ entry.2.edges, e.fromVertex = entry.1) :
    (mapUpdate (fun v => { v with edges := removeEdgeLoop b v.edges }) m a).flatMap
        (fun entry => entry.2.edges.map (fun e => (e.fromVertex, e.toVertex)))
      = (m.flatMap
          (fun entry => entry.2.edges.map (fun e => (e.fromVertex, e.toVertex)))).erase (a, b) := by
  induction m with
  | nil => rfl
  | cons c rest ih =>
    obtain ⟨k, w⟩ := c
    rw [List.pairwise_cons] at hp
    have hhead : ∀ e ∈ w.edges, e.fromVertex = k := hm (k, w) (List.mem_cons_self _ _)
    have hmrest : ∀ entry ∈ rest, ∀ e ∈ entry.2.edges, e.fromVertex = entry.1 :=
      fun entry he => hm entry (List.mem_cons_of_mem _ he)
    by_cases hk : k = a
    · subst hk
      have hnot : (k, b) ∉ rest.flatMap
          (fun entry => entry.2.edges.map (fun e => (e.fromVertex, e.toVertex))) := by
        apply not_mem_pairs_of_key_ne k b rest hmrest
        intro entry he
        have := hp.1 entry he
        simp only at this
        omega
      simp only [mapUpdate, if_true, List.flatMap_cons, removeEdgeLoop_pairs k b w.edges hhead]
      rw [List.erase_append]
      by_cases hin : (k, b) ∈ w.edges.map (fun e => (e.fromVertex, e.toVertex))
      · simp only [hin, if_true]
      · simp only [hin, if_false, List.erase_of_not_mem hin, List.erase_of_not_mem hnot]
    · have hnot : (a, b) ∉ w.edges.map (fun e => (e.fromVertex, e.toVertex)) := by
        intro h
        obtain ⟨e, he, hpair⟩ := List.mem_map.1 h
        have h2 : e.fromVertex = a := by simpa using congrArg Prod.fst hpair
        exact hk ((hhead e he).symm.trans h2)
      simp only [mapUpdate, hk, if_false, List.flatMap_cons, ih hp.2 hmrest,
        List.erase_append_right _ hnot]

theorem DFTrLoop_fresh (g : Digraph VertexInfo EdgeInfo)
    (recurse : Int → List Int → Except Failure Bool) (vertex : Int)
    (l : List (DigraphEdge EdgeInfo)) (visited : List Int)
    (h : (visited ++ l.map (fun e => e.toVertex)).Nodup) :
    DFTrLoop g recurse vertex l visited
      = .ok (visited.length + l.length == g.vertexNumber) := by
  induction l generalizing visited with
  | nil => simp [DFTrLoop]
  | cons e rest ih =>
    have hnot : e.toVertex ∉ visited := by
      intro hin
      have h1 := (List.nodup_append.1 h).2.2
      exact h1 hin (by simp)
    have h2 : ((visited ++ [e.toVertex]) ++ rest.map (fun e => e.toVertex)).Nodup := by
      simpa using h
    simp only [DFTrLoop, hnot, not_false_eq_true, if_true, ih _ h2]
    have h3 : (visited ++ [e.toVertex]).length + rest.length
        = visited.length + (e :: rest).length := by
      simp only [List.length_append, List.length_cons, List.length_nil]
      omega
    rw [h3]

theorem DFTr_top (g : Digraph VertexInfo EdgeInfo) (fuel : Nat) (k : Int)
    (v : DigraphVertex VertexInfo EdgeInfo) (hv : mapAt g.map k = some v)
    (hn : (v.edges.map (fun e => e.toVertex)).Nodup) :
    g.DFTr (fuel + 1) k [] = .ok (v.edges.length == g.vertexNumber) := by
  simp only [Digraph.DFTr, hv]
  rw [DFTrLoop_fresh g _ k v.edges [] (by simpa using hn)]
  simp

theorem isStronglyConnectedLoop_last (g : Digraph VertexInfo EdgeInfo) (fuel : Nat)
    (l : StdMap (DigraphVertex VertexInfo EdgeInfo)) (x : Option Bool)
    (hl : ∀ entry ∈ l, mapAt g.map entry.1 = some entry.2 ∧
      (entry.2.edges.map (fun e => e.toVertex)).Nodup) :
    isStronglyConnectedLoop g (fuel + 1) l x
      = .ok (match l.getLast? with
          | none => x
          | some entry => some (entry.2.edges.length == g.vertexNumber)) := by
  induction l generalizing x with
  | nil => rfl
  | cons c rest ih =>
    obtain ⟨k, v⟩ := c
    have hc := hl (k, v) (List.mem_cons_self _ _)
    have hrest := ih (some (v.edges.length == g.vertexNumber))
      (fun entry he => hl entry (List.mem_cons_of_mem _ he))
    simp only [isStronglyConnectedLoop, DFTr_top g fuel k v hc.1 hc.2, hrest]
    cases rest with
    | nil => rfl
    | cons c2 rest2 =>
      rw [List.getLast?_cons_cons]
      cases hlast : (c2 :: rest2).getLast? with
      | none => simp at hlast
      | some e => rfl

/-- On a well-formed, non-empty graph `isStronglyConnected()` returns whether
the number of edges of the last entry of the map equals `vertexNumber`. -/
theorem isStronglyConnected_of_wellFormed (g : Digraph VertexInfo EdgeInfo) (fuel : Nat)
    (hg : g.WellFormed) (entry : Int × DigraphVertex VertexInfo EdgeInfo)
    (hlast : g.map.getLast? = some entry) :
    g.isStronglyConnected (fuel + 1)
      = .ok (entry.2.edges.length == g.vertexNumber) := by
  have hl : ∀ entry ∈ g.map, mapAt g.map entry.1 = some entry.2 ∧
      (entry.2.edges.map (fun e => e.toVertex)).Nodup :=
    fun entry he => ⟨mapAt_of_mem g.map entry.1 entry.2 hg.1 he, (hg.2 entry he).2⟩
  simp only [Digraph.isStronglyConnected, isStronglyConnectedLoop_last g fuel g.map none hl,
    hlast]

theorem isStronglyConnected_true_inv (g : Digraph VertexInfo EdgeInfo) (fuel : Nat)
    (hg : g.WellFormed) (h : g.isStronglyConnected fuel = .ok true) :
    ∃ entry, g.map.getLast? = some entry ∧ entry.2.edges.length = g.vertexNumber := by
  cases hlast : g.map.getLast? with
  | none =>
    have hnil : g.map = [] := List.getLast?_eq_none_iff.1 hlast
    simp [Digraph.isStronglyConnected, hnil, isStronglyConnectedLoop] at h
  | some entry =>
    cases fuel with
    | zero =>
      cases hm : g.map with
      | nil => simp [hm] at hlast
      | cons c rest =>
        simp [Digraph.isStronglyConnected, hm, isStronglyConnectedLoop, Digraph.DFTr] at h
    | succ n =>
      rw [isStronglyConnected_of_wellFormed g n hg entry hlast] at h
      refine ⟨entry, rfl, ?_⟩
      simpa using h

theorem getLast?_mapInsert {β : Type} (m : StdMap β) (key : Int) (value : β) :
    (mapInsert m key value).getLast? = some (key, value) ∨
    ((mapInsert m key value).getLast? = m.getLast? ∧ m ≠ []) := by
  induction m with
  | nil => exact Or.inl rfl
  | cons c rest ih =>
    obtain ⟨k, w⟩ := c
    by_cases h1 : key < k
    · exact Or.inr ⟨by simp [mapInsert, h1, List.getLast?_cons_cons], by simp⟩
    · by_cases h2 : k = key
      · exact Or.inr ⟨by simp [mapInsert, h1, h2], by simp⟩
      · simp only [mapInsert, h1, h2, if_false]
        have hne : mapInsert rest key value ≠ [] := by
          cases rest with
          | nil => simp [mapInsert]
          | cons c2 rest2 =>
            obtain ⟨k2, w2⟩ := c2
            simp only [mapInsert]
            split
            · simp
            · split <;> simp
        obtain ⟨c3, rest3, h3⟩ := List.exists_cons_of_ne_nil hne
        rw [h3, List.getLast?_cons_cons, ← h3]
        rcases ih with h | ⟨h, hr⟩
        · exact Or.inl h
        · obtain ⟨c4, rest4, h4⟩ := List.exists_cons_of_ne_nil hr
          refine Or.inr ⟨?_, by simp⟩
          rw [h, h4, List.getLast?_cons_cons]

theorem graphLoopAtOne_calls :
    (Digraph.empty : Digraph Unit Int).calls [.addVertex 1 (), .addEdge 1 1 1]
      = .ok graphLoopAtOne := rfl

theorem graphLoopAtOne_built : Built graphLoopAtOne :=
  built_calls _ Built.empty graphLoopAtOne_calls

/-- C18: on a graph built through the public operations on which
`isStronglyConnected()` returns true, after `addVertex(x, p)` for an `x` that
is not in `vertices()` (the number of vertices staying below `2^32`, the range
of the counter), `isStronglyConnected()` returns false. -/
theorem isStronglyConnected_false_after_addVertex (g : Digraph VertexInfo EdgeInfo) (x : Int)
    (p : VertexInfo) (fuel : Nat) (hg : Built g)
    (hsc : g.isStronglyConnected fuel = .ok true) (hx : x ∉ g.vertices)
    (hfit : g.vertexNumber + 1 < 2 ^ 32) :
    ∃ g1, g.addVertex x p = .ok g1 ∧
      ∀ fuel1, g1.isStronglyConnected (fuel1 + 1) = .ok false := by
  have hwf := wellFormed_of_built hg
  have hc : mapCount g.map x = 0 := by
    have := (mapCount_pos_iff_mem g.map x).not.2 hx
    exact not_not.1 this
  have hc2 : ¬ mapCount g.map x > 0 := by omega
  have hadd : g.addVertex x p = .ok { g with
      map := mapInsert g.map x { vinfo := p, edges := [] }
      vertexNumber := uintIncr g.vertexNumber } := by
    simp only [Digraph.addVertex, hc2, if_false]
  refine ⟨_, hadd, ?_⟩
  intro fuel1
  have hwf1 := wellFormed_addVertex hwf hadd
  obtain ⟨last, hlast, hdeg⟩ := isStronglyConnected_true_inv g fuel hwf hsc
  have hincr : uintIncr g.vertexNumber = g.vertexNumber + 1 := by
    unfold uintIncr
    exact Nat.mod_eq_of_lt hfit
  rcases getLast?_mapInsert g.map x ({ vinfo := p, edges := [] } : DigraphVertex VertexInfo EdgeInfo)
    with h | ⟨h, _⟩
  · rw [isStronglyConnected_of_wellFormed _ fuel1 hwf1 _ h]
    simp only [List.length_nil, hincr]
    congr 1
  · rw [isStronglyConnected_of_wellFormed _ fuel1 hwf1 last (h.trans hlast)]
    simp only [hincr, hdeg]
    congr 1
    simp only [beq_eq_false_iff_ne, ne_eq]
    omega

/-- C18 at the graph with vertex 1 and the edge 1 → 1, and the new vertex 2. -/
theorem isStronglyConnected_false_after_addVertex_witness :
    Built graphLoopAtOne ∧
    graphLoopAtOne.isStronglyConnected 1 = .ok true ∧
    (2 : Int) ∉ graphLoopAtOne.vertices ∧
    graphLoopAtOne.vertexNumber + 1 < 2 ^ 32 ∧
    ∃ g1, graphLoopAtOne.addVertex 2 () = .ok g1 ∧
      ∀ fuel1, g1.isStronglyConnected (fuel1 + 1) = .ok false :=
  ⟨graphLoopAtOne_built, rfl, by decide, by decide,
    isStronglyConnected_false_after_addVertex graphLoopAtOne 2 () 1 graphLoopAtOne_built rfl
      (by decide) (by decide)⟩

/-! ## A call that throws leaves the graph as it was -/

theorem removeVertexLoopRun_none (vertex : Int)
    (m : StdMap (DigraphVertex VertexInfo EdgeInfo))
    (h : (removeVertexLoopRun vertex m).2 = none) :
    removeVertexLoop vertex m = .ok (removeVertexLoopRun vertex m).1 := by
  induction m with
  | nil => rfl
  | cons b rest ih =>
    obtain ⟨k, v⟩ := b
    by_cases hk : k = vertex
    · cases hv : v.edges with
      | nil =>
        simp only [removeVertexLoopRun, hk, ne_eq, not_true_eq_false, if_false, hv,
          eraseEachRun] at h ⊢
        simp only [removeVertexLoop, hk, ne_eq, not_true_eq_false, if_false, hv, eraseEach,
          ih h]
      | cons e es =>
        simp [removeVertexLoopRun, hk, hv, eraseEachRun] at h
    · simp only [removeVertexLoopRun, hk, ne_eq, not_false_eq_true, if_true] at h ⊢
      simp only [removeVertexLoop, hk, ne_eq, not_false_eq_true, if_true, ih h]

theorem removeVertexLoopRun_some (vertex : Int)
    (m : StdMap (DigraphVertex VertexInfo EdgeInfo)) (f : Failure)
    (h : (removeVertexLoopRun vertex m).2 = some f) :
    removeVertexLoop vertex m = .error f ∧ f = .undefinedBehaviour := by
  induction m with
  | nil => simp [removeVertexLoopRun] at h
  | cons b rest ih =>
    obtain ⟨k, v⟩ := b
    by_cases hk : k = vertex
    · cases hv : v.edges with
      | nil =>
        simp only [removeVertexLoopRun, hk, ne_eq, not_true_eq_false, if_false, hv,
          eraseEachRun] at h
        obtain ⟨h1, h2⟩ := ih h
        exact ⟨by simp only [removeVertexLoop, hk, ne_eq, not_true_eq_false, if_false, hv,
          eraseEach, h1], h2⟩
      | cons e es =>
        simp only [removeVertexLoopRun, hk, ne_eq, not_true_eq_false, if_false, hv,
          eraseEachRun, Option.some.injEq] at h
        exact ⟨by simp only [removeVertexLoop, hk, ne_eq, not_true_eq_false, if_false, hv,
          eraseEach, h], h.symm⟩
    · simp only [removeVertexLoopRun, hk, ne_eq, not_false_eq_true, if_true] at h
      obtain ⟨h1, h2⟩ := ih h
      exact ⟨by simp only [removeVertexLoop, hk, ne_eq, not_false_eq_true, if_true, h1], h2⟩

/-- The two descriptions of a call agree: the run of `op` returns exactly when
`call` does, with the same graph, and ends otherwise in the same exception or
undefined step. -/
theorem outcome_callRun (g : Digraph VertexInfo EdgeInfo) (op : Op VertexInfo EdgeInfo) :
    outcome (g.callRun op) = g.call op := by
  cases op with
  | addVertex vertex vinfo =>
    simp only [Digraph.callRun, Digraph.call, Digraph.addVertexRun, Digraph.addVertex]
    split <;> rfl
  | addEdge a b e =>
    simp only [Digraph.callRun, Digraph.call, Digraph.addEdgeRun, Digraph.addEdge]
    split
    · rfl
    · split
      · rfl
      · split
        · rfl
        · split <;> rfl
  | removeVertex vertex =>
    simp only [Digraph.callRun, Digraph.call, Digraph.removeVertexRun, Digraph.removeVertex]
    split
    · rfl
    · cases hr : (removeVertexLoopRun vertex g.map).2 with
      | none =>
        simp only [removeVertexLoopRun_none vertex g.map hr]
        rfl
      | some f =>
        simp only [(removeVertexLoopRun_some vertex g.map f hr).1]
        rfl
  | removeEdge a b =>
    simp only [Digraph.callRun, Digraph.call, Digraph.removeEdgeRun, Digraph.removeEdge]
    split
    · rfl
    · split
      · rfl
      · split
        · rfl
        · split <;> rfl

theorem callRun_thrown_unchanged (g : Digraph VertexInfo EdgeInfo)
    (op : Op VertexInfo EdgeInfo) (f : Failure) (h : (g.callRun op).2 = some f)
    (hf : f ≠ Failure.undefinedBehaviour) :
    (g.callRun op).1 = g := by
  cases op with
  | addVertex vertex vinfo =>
    simp only [Digraph.callRun, Digraph.addVertexRun] at h ⊢
    split
    · rfl
    · rename_i hc
      simp [hc] at h
  | addEdge a b e =>
    simp only [Digraph.callRun, Digraph.addEdgeRun] at h ⊢
    split
    · rfl
    · rename_i hc
      simp only [hc, if_false] at h
      split
      · rfl
      · rename_i edgeVector hev
        simp only [hev] at h
        split
        · rfl
        · rename_i hin
          simp only [hin, if_false] at h
          split
          · rfl
          · rename_i v hv
            simp [hv] at h
  | removeVertex vertex =>
    simp only [Digraph.callRun, Digraph.removeVertexRun] at h ⊢
    split
    · rfl
    · rename_i hc
      simp only [hc, if_false] at h
      cases hr : (removeVertexLoopRun vertex g.map).2 with
      | none => simp [hr] at h
      | some f2 =>
        simp only [hr, Option.some.injEq] at h
        exact absurd (h ▸ (removeVertexLoopRun_some vertex g.map f2 hr).2) hf
  | removeEdge a b =>
    simp only [Digraph.callRun, Digraph.removeEdgeRun] at h ⊢
    split
    · rfl
    · rename_i hc
      simp only [hc, if_false] at h
      split
      · rfl
      · rename_i edgeVector hev
        simp only [hev] at h
        split
        · rfl
        · rename_i hin
          simp only [hin, if_false] at h
          split
          · rfl
          · rename_i v hv
            simp [hv] at h

/-- C12: when a call of `addVertex`, `addEdge`, `removeVertex` or `removeEdge`
throws (it ends in an exception, not in the undefined step of the inner loop
of `removeVertex`, which is no failure the call reports), the graph when the
call ends is the graph before the call: same map (hence same `vertices()`,
`edges()` and payloads) and same `vertexCount()` and `edgeCount()`. -/
theorem failure_atomic (g : Digraph VertexInfo EdgeInfo) (op : Op VertexInfo EdgeInfo)
    (f : Failure) (h : g.call op = .error f) (hf : f ≠ Failure.undefinedBehaviour) :
    (g.callRun op).2 = some f ∧
    (g.callRun op).1 = g ∧
    (g.callRun op).1.vertices = g.vertices ∧
    (g.callRun op).1.edges = g.edges ∧
    (g.callRun op).1.vertexCount = g.vertexCount ∧
    (g.callRun op).1.edgeCount = g.edgeCount := by
  have hthrown : (g.callRun op).2 = some f := by
    have h1 := outcome_callRun g op
    rw [h] at h1
    unfold outcome at h1
    cases h2 : (g.callRun op).2 with
    | none => simp [h2] at h1
    | some f2 =>
      simp only [h2] at h1
      injection h1 with h1
      rw [h1]
  have hsame := callRun_thrown_unchanged g op f hthrown hf
  refine ⟨hthrown, hsame, ?_, ?_, ?_, ?_⟩ <;> rw [hsame]

/-- C12 at the graph with vertices 1 and 2 and the edge 1 → 2, for the call
`addEdge(1, 2, p)`, which throws. -/
theorem failure_atomic_witness :
    graphOneEdge.call (.addEdge 1 2 4)
      = .error (.digraphException "Edge is already in the graph") ∧
    Failure.digraphException "Edge is already in the graph" ≠ Failure.undefinedBehaviour ∧
    (graphOneEdge.callRun (.addEdge 1 2 4)).2
      = some (.digraphException "Edge is already in the graph") ∧
    (graphOneEdge.callRun (.addEdge 1 2 4)).1 = graphOneEdge ∧
    (graphOneEdge.callRun (.addEdge 1 2 4)).1.vertices = graphOneEdge.vertices ∧
    (graphOneEdge.callRun (.addEdge 1 2 4)).1.edges = graphOneEdge.edges ∧
    (graphOneEdge.callRun (.addEdge 1 2 4)).1.vertexCount = graphOneEdge.vertexCount ∧
    (graphOneEdge.callRun (.addEdge 1 2 4)).1.edgeCount = graphOneEdge.edgeCount :=
  ⟨rfl, by decide, failure_atomic graphOneEdge (.addEdge 1 2 4) _ rfl (by decide)⟩

/-! ## The search of findShortestPaths -/

theorem graphFan_calls :
    (Digraph.empty : Digraph Unit Int).calls
      [.addVertex 1 (), .addVertex 2 (), .addVertex 3 (), .addEdge 1 2 5, .addEdge 1 3 1]
      = .ok graphFan := rfl

theorem graphFan_built : Built graphFan := built_calls _ Built.empty graphFan_calls

theorem graphFanCut_calls :
    graphFan.calls [.removeVertex 2, .removeVertex 3] = .ok graphFanCut := rfl

theorem graphFanCut_built : Built graphFanCut := built_calls _ graphFan_built graphFanCut_calls

/-- The function `findShortestPaths` is the search followed by the loop that
fills the returned map. -/
theorem findShortestPaths_eq_searchEnd (fuel : Nat) (inf : Int)
    (g : Digraph VertexInfo EdgeInfo) (startVertex : Int) (edgeWeightFunc : EdgeInfo → Int) :
    g.findShortestPaths fuel inf startVertex edgeWeightFunc
      = match g.searchEnd fuel inf startVertex edgeWeightFunc with
        | .error f => .error f
        | .ok s => resultLoop s.predecessor s.d 0 [] := by
  unfold Digraph.findShortestPaths Digraph.searchEnd Digraph.searchStart
  rfl

/-- A turn of `searchLoop` on a queue that is not empty is `whileTurn`. -/
theorem searchLoop_succ (g : Digraph VertexInfo EdgeInfo) (edgeWeightFunc : EdgeInfo → Int)
    (fuel : Nat) (s : SearchState) (hs : s.pq ≠ []) :
    searchLoop g edgeWeightFunc (fuel + 1) s
      = match whileTurn g edgeWeightFunc s with
        | .error f => .error f
        | .ok s1 => searchLoop g edgeWeightFunc fuel s1 := by
  obtain ⟨k, d, predecessor, pq⟩ := s
  cases pq with
  | nil => exact absurd rfl hs
  | cons top rest =>
    obtain ⟨minVertex, dist⟩ := top
    simp only [searchLoop, whileTurn]
    split
    · split <;> rfl
    · rfl

/-- C19: the relaxation test of the code is `d[v] < d[u] + w`.  On the graph
with vertices 1, 2 and the edge 2 → 2 of weight 1, the search from 2 starts
with `d[2] = 0` and ends with `d[2] = 1` and 2 recorded once more in
`predecessor`: the distance 0 was replaced by the larger 0 + 1.  On the graph
with vertices 1, 2 and the edge 1 → 2 of weight 7, the search from 1 starts
with `d[2] = inf`; it ends with `d[2] = 7` when `inf < 7` (a smaller distance
replaced by a larger one) and with `d[2] = inf` and no predecessor recorded
when `7 ≤ inf`, also when `0 + 7 < inf`. -/
theorem relaxation_reversed (fuel : Nat) (inf : Int) :
    Built graphLoopAtTwo ∧
    (graphLoopAtTwo.searchStart inf 2).d = [(1, inf), (2, 0)] ∧
    graphLoopAtTwo.searchEnd (fuel + 2) inf 2 id
      = .ok { k := [(1, false), (2, true)], d := [(1, inf), (2, 1)],
              predecessor := [2, 2], pq := [] } ∧
    Built graphOneEdge ∧
    (graphOneEdge.searchStart inf 1).d = [(1, 0), (2, inf)] ∧
    graphOneEdge.searchEnd (fuel + 2) inf 1 id
      = .ok (if inf < 7 then
          { k := [(1, true), (2, true)], d := [(1, 0), (2, 7)],
            predecessor := [1, 1], pq := [] }
        else
          { k := [(1, true), (2, false)], d := [(1, 0), (2, inf)],
            predecessor := [1], pq := [] }) := by
  refine ⟨graphLoopAtTwo_built, rfl, ?_, graphOneEdge_built, rfl, ?_⟩
  · cases fuel <;> rfl
  · have hstart : graphOneEdge.searchStart inf 1
        = { k := [(1, false), (2, false)], d := [(1, 0), (2, inf)],
            predecessor := [1], pq := [(1, 0)] } := rfl
    simp only [Digraph.searchEnd, hstart]
    by_cases h : inf < 7 <;> cases fuel <;>
    simp [graphOneEdge, searchLoop, mapIndex, mapAt, mapAssign, relaxLoop, fitsInt, pqPush, h]

/-- C20: the queue of the code is ordered by vertex number first.  On the
graph with the edges 1 → 2 of weight 5 and 1 → 3 of weight 1, searched from 1
with a stored `inf` below 1 (the initial distance of vertices 2 and 3, not
larger than the path weights 5 and 1): after the first turn of the loop the
queue holds (2, 5) before (3, 1), and the second turn settles vertex 2, of
distance 5, and leaves (3, 1) in the queue.  On the graph left by
`removeVertex(2)` and `removeVertex(3)` the first turn leaves the same queue
for every stored `inf`. -/
theorem queue_ordered_by_vertex (inf : Int) (h : inf < 1) :
    Built graphFan ∧
    (graphFan.searchStart inf 1).d = [(1, 0), (2, inf), (3, inf)] ∧
    whileTurn graphFan id (graphFan.searchStart inf 1)
      = .ok { k := [(1, true), (2, false), (3, false)], d := [(1, 0), (2, 5), (3, 1)],
              predecessor := [1, 1, 1], pq := [(2, 5), (3, 1)] } ∧
    whileTurn graphFan id
        { k := [(1, true), (2, false), (3, false)], d := [(1, 0), (2, 5), (3, 1)],
          predecessor := [1, 1, 1], pq := [(2, 5), (3, 1)] }
      = .ok { k := [(1, true), (2, true), (3, false)], d := [(1, 0), (2, 5), (3, 1)],
              predecessor := [1, 1, 1], pq := [(3, 1)] } ∧
    Built graphFanCut ∧
    whileTurn graphFanCut id (graphFanCut.searchStart inf 1)
      = .ok { k := [(1, true)], d := [(1, 0), (2, 5), (3, 1)],
              predecessor := [1, 1, 1], pq := [(2, 5), (3, 1)] } := by
  refine ⟨graphFan_built, rfl, ?_, rfl, graphFanCut_built, rfl⟩
  have hstart : graphFan.searchStart inf 1
      = { k := [(1, false), (2, false), (3, false)], d := [(1, 0), (2, inf), (3, inf)],
          predecessor := [1], pq := [(1, 0)] } := rfl
  have h5 : inf < 5 := by omega
  rw [hstart]
  simp [graphFan, whileTurn, mapIndex, mapAt, mapAssign, relaxLoop, fitsInt, pqPush, h, h5]

/-- C20 at the value -2147483648 stored for `inf`. -/
theorem queue_ordered_by_vertex_witness :
    (-2147483648 : Int) < 1 ∧
    whileTurn graphFan id (graphFan.searchStart (-2147483648) 1)
      = .ok { k := [(1, true), (2, false), (3, false)], d := [(1, 0), (2, 5), (3, 1)],
              predecessor := [1, 1, 1], pq := [(2, 5), (3, 1)] } :=
  ⟨by decide, (queue_ordered_by_vertex (-2147483648) (by decide)).2.2.1⟩

/-! ## addEdge followed by removeEdge -/

theorem removeEdgeLoop_append_new (b : Int) (l : List (DigraphEdge EdgeInfo))
    (e : DigraphEdge EdgeInfo) (he : e.toVertex = b) (hl : ∀ x ∈ l, x.toVertex ≠ b) :
    removeEdgeLoop b (l ++ [e]) = l := by
  induction l with
  | nil => simp [removeEdgeLoop, he]
  | cons c rest ih =>
    have hc : ¬ c.toVertex = b := hl c (List.mem_cons_self _ _)
    have hrest := ih (fun x hx => hl x (List.mem_cons_of_mem _ hx))
    show removeEdgeLoop b (c :: (rest ++ [e])) = c :: rest
    simp only [removeEdgeLoop, hc, if_false, hrest]

theorem mapUpdate_mapUpdate {β : Type} (f1 f2 : β → β) (m : StdMap β) (key : Int) :
    mapUpdate f2 (mapUpdate f1 m key) key = mapUpdate (fun v => f2 (f1 v)) m key := by
  induction m with
  | nil => rfl
  | cons c rest ih =>
    obtain ⟨k, v⟩ := c
    by_cases hk : k = key
    · simp [mapUpdate, hk]
    · simp [mapUpdate, hk, ih]

theorem mapUpdate_eq_self {β : Type} (f : β → β) (m : StdMap β) (key : Int)
    (h : ∀ v, mapAt m key = some v → f v = v) : mapUpdate f m key = m := by
  induction m with
  | nil => rfl
  | cons c rest ih =>
    obtain ⟨k, v⟩ := c
    by_cases hk : k = key
    · have hv : f v = v := h v (by simp [mapAt, hk])
      simp [mapUpdate, hk, hv]
    · have hrest : ∀ w, mapAt rest key = some w → f w = w := by
        intro w hw
        exact h w (by simp [mapAt, hk, hw])
      simp [mapUpdate, hk, ih hrest]

theorem uintDecr_uintIncr (n : Nat) (h : n < 2 ^ 32) : uintDecr (uintIncr n) = n := by
  unfold uintDecr uintIncr
  omega

/-- The counter `edgeNumber` of a graph built through the public operations
is a value of `unsigned int`. -/
theorem edgeNumber_lt_of_built {g : Digraph VertexInfo EdgeInfo} (hg : Built g) :
    g.edgeNumber < 2 ^ 32 := by
  induction hg with
  | empty => simp [Digraph.empty]
  | addVertex vertex vinfo _ h ih =>
    obtain ⟨_, rfl⟩ := addVertex_ok h
    exact ih
  | addEdge a b e _ h ih =>
    obtain ⟨_, _, _, rfl⟩ := addEdge_ok h
    simp only [uintIncr]
    omega
  | removeVertex vertex _ h ih =>
    obtain ⟨_, _, rfl⟩ := removeVertex_ok h
    exact ih
  | removeEdge a b _ h ih =>
    obtain ⟨_, _, _, rfl⟩ := removeEdge_ok h
    simp only [uintDecr]
    omega

/-- C22: when `addEdge(a, b, p)` succeeds on a graph (whose counter
`edgeNumber` is a value of `unsigned int`), the `removeEdge(a, b)` that
follows succeeds and leaves the graph that `addEdge` started from: the same
map, hence the same `vertices()`, the same `edges()` in the same order and the
same payloads, and the same `vertexCount()` and `edgeCount()`. -/
theorem removeEdge_after_addEdge (g g1 : Digraph VertexInfo EdgeInfo) (a b : Int)
    (p : EdgeInfo) (hn : g.edgeNumber < 2 ^ 32) (h : g.addEdge a b p = .ok g1) :
    ∃ g2, g1.removeEdge a b = .ok g2 ∧
      g2 = g ∧
      g2.vertices = g.vertices ∧
      g2.edges = g.edges ∧
      g2.vertexCount = g.vertexCount ∧
      g2.edgeCount = g.edgeCount := by
  obtain ⟨hc1, hc2, hnot, rfl⟩ := addEdge_ok h
  obtain ⟨v, hv⟩ := mapAt_ne_none_of_count g.map a hc1
  have hc : ¬ (mapCount g.map a = 0 ∨ mapCount g.map b = 0) := by
    rintro (h0 | h0)
    · exact hc1 h0
    · exact hc2 h0
  have hv1 : mapAt (mapUpdate (fun v => { v with edges := v.edges ++ [⟨a, b, p⟩] }) g.map a) a
      = some { v with edges := v.edges ++ [⟨a, b, p⟩] } := by
    simp [mapAt_mapUpdate, hv]
  have hin : (a, b) ∈ edgesOfLoop a
      (mapUpdate (fun v => { v with edges := v.edges ++ [⟨a, b, p⟩] }) g.map a) :=
    mem_edgesOfLoop a _ _ ⟨a, b, p⟩ (mem_of_mapAt _ _ _ hv1) (by simp)
  have hback : mapUpdate (fun v => { v with edges := removeEdgeLoop b v.edges })
      (mapUpdate (fun v => { v with edges := v.edges ++ [⟨a, b, p⟩] }) g.map a) a = g.map := by
    rw [mapUpdate_mapUpdate]
    apply mapUpdate_eq_self
    intro w hw
    have hfree : ∀ x ∈ w.edges, x.toVertex ≠ b := by
      intro x hx hxb
      exact hnot (hxb ▸ mem_edgesOfLoop a g.map w x (mem_of_mapAt _ _ _ hw) hx)
    simp only [removeEdgeLoop_append_new b w.edges ⟨a, b, p⟩ rfl hfree]
  have hrun : ({ g with
      map := mapUpdate (fun v => { v with edges := v.edges ++ [⟨a, b, p⟩] }) g.map a
      edgeNumber := uintIncr g.edgeNumber } : Digraph VertexInfo EdgeInfo).removeEdge a b
      = .ok g := by
    rw [removeEdge_eq]
    simp only [mapCount_mapUpdate, hc, if_false, hin, not_true_eq_false, hback,
      uintDecr_uintIncr _ hn]
  exact ⟨g, hrun, rfl, rfl, rfl, rfl, rfl⟩

/-- C22 at the three-vertex graph A, B, C and the new edge 3 → 1. -/
theorem removeEdge_after_addEdge_witness :
    graphABC.edgeNumber < 2 ^ 32 ∧
    ∃ g1, graphABC.addEdge 3 1 9 = .ok g1 ∧
      ∃ g2, g1.removeEdge 3 1 = .ok g2 ∧
        g2 = graphABC ∧
        g2.vertices = graphABC.vertices ∧
        g2.edges = graphABC.edges ∧
        g2.vertexCount = graphABC.vertexCount ∧
        g2.edgeCount = graphABC.edgeCount :=
  ⟨by decide, _, rfl, removeEdge_after_addEdge graphABC _ 3 1 9 (by decide) rfl⟩

/-! ## isStronglyConnected is decided by the last vertex -/

theorem le_last_key {β : Type} (m : StdMap β) (e : Int × β)
    (hm : m.Pairwise (fun a b => a.1 < b.1)) (hlast : m.getLast? = some e) :
    e ∈ m ∧ ∀ a ∈ m, a.1 ≤ e.1 := by
  obtain ⟨ys, rfl⟩ := List.getLast?_eq_some_iff.1 hlast
  refine ⟨by simp, ?_⟩
  intro a ha
  rcases List.mem_append.1 ha with h | h
  · have h1 := (List.pairwise_append.1 hm).2.2 a h e (by simp)
    exact le_of_lt h1
  · simp only [List.mem_singleton] at h
    rw [h]

theorem last_key_of_keys {β : Type} (m : StdMap β) (e : Int × β)
    (hlast : m.getLast? = some e) : (m.map Prod.fst).getLast? = some e.1 := by
  obtain ⟨ys, rfl⟩ := List.getLast?_eq_some_iff.1 hlast
  simp

theorem edgeCountOf_of_mem (g : Digraph VertexInfo EdgeInfo) (hg : g.WellFormed)
    (e : Int × DigraphVertex VertexInfo EdgeInfo) (he : e ∈ g.map) :
    g.edgeCountOf e.1 = .ok (e.2.edges.length : Int) := by
  have hat := mapAt_of_mem g.map e.1 e.2 hg.1 he
  have hc : mapCount g.map e.1 ≠ 0 :=
    (mapCount_pos_iff_mem g.map e.1).2 (List.mem_map.2 ⟨e, he, rfl⟩)
  simp only [Digraph.edgeCountOf, hc, if_false, hat, foldl_counter, zero_add]

theorem vertexNumber_eq_length {g : Digraph VertexInfo EdgeInfo} (hg : Built g)
    (hfit : g.vertices.length < 2 ^ 31) :
    g.vertexNumber = g.vertices.length ∧ g.vertexCount = (g.vertices.length : Int) := by
  have hlen : g.vertices.length = g.map.length := by simp [Digraph.vertices]
  have h1 := vertexNumber_of_built hg
  rw [hlen] at hfit ⊢
  have h2 : g.map.length % 2 ^ 32 = g.map.length := Nat.mod_eq_of_lt (by omega)
  refine ⟨h1.trans h2, ?_⟩
  unfold Digraph.vertexCount
  rw [h1]
  exact uintToInt_of_lt _ hfit

/-- C21: on a non-empty graph built through the public operations (with fewer
than `2^31` vertices, the counts `int` can hold), for the vertex `v` with the
largest identifier: `isStronglyConnected()` returns, at every depth allowed to
the traversal from 1 on, whether `edgeCount(v)` equals `vertexCount()`; and
every built graph with the same `vertices()` and the same `edgeCount(v)` gets
the same result, whatever the edges of its other vertices. -/
theorem isStronglyConnected_last_vertex (g : Digraph VertexInfo EdgeInfo) (fuel : Nat)
    (hg : Built g) (hne : g.vertices ≠ []) (hfit : g.vertices.length < 2 ^ 31) :
    ∃ v, v ∈ g.vertices ∧ (∀ u ∈ g.vertices, u ≤ v) ∧
      ∃ n : Int, g.edgeCountOf v = .ok n ∧
        g.isStronglyConnected (fuel + 1) = .ok (decide (n = g.vertexCount)) ∧
        ∀ g2 : Digraph VertexInfo EdgeInfo, Built g2 → g2.vertices = g.vertices →
          g2.edgeCountOf v = g.edgeCountOf v →
          g2.isStronglyConnected (fuel + 1) = g.isStronglyConnected (fuel + 1) := by
  have hwf := wellFormed_of_built hg
  have hmne : g.map ≠ [] := by
    intro h0
    exact hne (by simp [Digraph.vertices, h0])
  cases hlast : g.map.getLast? with
  | none => exact absurd (List.getLast?_eq_none_iff.1 hlast) hmne
  | some e =>
    obtain ⟨hmem, hmax⟩ := le_last_key g.map e hwf.1 hlast
    obtain ⟨hnum, hcount⟩ := vertexNumber_eq_length hg hfit
    have hsc := isStronglyConnected_of_wellFormed g fuel hwf e hlast
    have hec := edgeCountOf_of_mem g hwf e hmem
    refine ⟨e.1, List.mem_map.2 ⟨e, hmem, rfl⟩, ?_, (e.2.edges.length : Int), hec, ?_, ?_⟩
    · intro u hu
      obtain ⟨a, ha, rfl⟩ := List.mem_map.1 hu
      exact hmax a ha
    · rw [hsc, hcount, hnum]
      congr 1
      by_cases hEq : e.2.edges.length = g.vertices.length
      · simp [hEq]
      · have hEq2 : ¬ ((e.2.edges.length : Int) = (g.vertices.length : Int)) := by
          intro h0
          exact hEq (by exact_mod_cast h0)
        simp [hEq, hEq2]
    · intro g2 hg2 hv hcnt
      have hwf2 := wellFormed_of_built hg2
      have hfit2 : g2.vertices.length < 2 ^ 31 := by rw [hv]; exact hfit
      obtain ⟨hnum2, _⟩ := vertexNumber_eq_length hg2 hfit2
      have hm2ne : g2.map ≠ [] := by
        intro h0
        apply hne
        rw [← hv]
        simp [Digraph.vertices, h0]
      cases hlast2 : g2.map.getLast? with
      | none => exact absurd (List.getLast?_eq_none_iff.1 hlast2) hm2ne
      | some e2 =>
        obtain ⟨hmem2, _⟩ := le_last_key g2.map e2 hwf2.1 hlast2
        have hk1 := last_key_of_keys g.map e hlast
        have hk2 := last_key_of_keys g2.map e2 hlast2
        have hkeys : g2.map.map Prod.fst = g.map.map Prod.fst := hv
        rw [hkeys, hk1] at hk2
        have hkey : e.1 = e2.1 := by
          injection hk2
        have hec2 := edgeCountOf_of_mem g2 hwf2 e2 hmem2
        rw [← hkey, hcnt, hec] at hec2
        have hlenEq : e.2.edges.length = e2.2.edges.length := by
          injection hec2 with h0
          exact_mod_cast h0
        rw [hsc, isStronglyConnected_of_wellFormed g2 fuel hwf2 e2 hlast2, hnum, hnum2, hv,
          hlenEq]

/-- C21 at the two-vertex cycle 1 → 2, 2 → 1: the largest identifier is 2,
`edgeCount(2)` is 1, `vertexCount()` is 2 and `isStronglyConnected()` returns
false. -/
theorem isStronglyConnected_last_vertex_witness :
    Built graphTwoCycle ∧ graphTwoCycle.vertices ≠ [] ∧ graphTwoCycle.vertices.length < 2 ^ 31 ∧
    ∃ v, v ∈ graphTwoCycle.vertices ∧ (∀ u ∈ graphTwoCycle.vertices, u ≤ v) ∧
      ∃ n : Int, graphTwoCycle.edgeCountOf v = .ok n ∧
        graphTwoCycle.isStronglyConnected (0 + 1) = .ok (decide (n = graphTwoCycle.vertexCount)) ∧
        ∀ g2 : Digraph Unit Int, Built g2 → g2.vertices = graphTwoCycle.vertices →
          g2.edgeCountOf v = graphTwoCycle.edgeCountOf v →
          g2.isStronglyConnected (0 + 1) = graphTwoCycle.isStronglyConnected (0 + 1) :=
  ⟨graphTwoCycle_built, by decide, by decide,
    isStronglyConnected_last_vertex graphTwoCycle 0 graphTwoCycle_built (by decide) (by decide)⟩

/-! ## Edge count -/

theorem edges_mapInsert_empty (m : StdMap (DigraphVertex VertexInfo EdgeInfo)) (key : Int)
    (vinfo : VertexInfo) :
    (mapInsert m key { vinfo := vinfo, edges := [] }).flatMap
        (fun entry => entry.2.edges.map (fun e => (e.fromVertex, e.toVertex)))
      = m.flatMap (fun entry => entry.2.edges.map (fun e => (e.fromVertex, e.toVertex))) := by
  induction m with
  | nil => rfl
  | cons c rest ih =>
    obtain ⟨k, w⟩ := c
    by_cases h1 : key < k
    · simp [mapInsert, h1]
    · by_cases h2 : k = key
      · simp [mapInsert, h1, h2]
      · simp only [mapInsert, h1, h2, if_false, List.flatMap_cons, ih]

theorem edges_mapErase_empty (m : StdMap (DigraphVertex VertexInfo EdgeInfo)) (key : Int)
    (h : ∀ entry ∈ m, entry.1 = key → entry.2.edges = []) :
    (mapErase m key).flatMap
        (fun entry => entry.2.edges.map (fun e => (e.fromVertex, e.toVertex)))
      = m.flatMap (fun entry => entry.2.edges.map (fun e => (e.fromVertex, e.toVertex))) := by
  induction m with
  | nil => rfl
  | cons c rest ih =>
    obtain ⟨k, w⟩ := c
    have hrest : ∀ entry ∈ rest, entry.1 = key → entry.2.edges = [] :=
      fun entry he => h entry (List.mem_cons_of_mem _ he)
    by_cases hk : k = key
    · have hw : w.edges = [] := h (k, w) (List.mem_cons_self _ _) hk
      simp [mapErase, hk, hw]
    · simp only [mapErase, hk, if_false, List.flatMap_cons, ih hrest]

theorem edges_length_mapUpdate_append (m : StdMap (DigraphVertex VertexInfo EdgeInfo))
    (a : Int) (e : DigraphEdge EdgeInfo) (h : mapCount m a ≠ 0) :
    ((mapUpdate (fun v => { v with edges := v.edges ++ [e] }) m a).flatMap
        (fun entry => entry.2.edges.map (fun e => (e.fromVertex, e.toVertex)))).length
      = (m.flatMap
          (fun entry => entry.2.edges.map (fun e => (e.fromVertex, e.toVertex)))).length + 1 := by
  induction m with
  | nil => simp [mapCount] at h
  | cons c rest ih =>
    obtain ⟨k, w⟩ := c
    by_cases hk : k = a
    · simp only [mapUpdate, hk, if_true, List.flatMap_cons, List.length_append, List.length_map,
        List.length_cons, List.length_nil]
      omega
    · simp only [mapCount, hk, if_false] at h
      simp only [mapUpdate, hk, if_false, List.flatMap_cons, List.length_append, ih h]
      omega

/-- The counter `edgeNumber` is the number of pairs of `edges()`, modulo
`2^32`. -/
theorem edgeNumber_of_built {g : Digraph VertexInfo EdgeInfo} (hg : Built g) :
    g.edgeNumber = g.edges.length % 2 ^ 32 := by
  induction hg with
  | empty => rfl
  | addVertex vertex vinfo _ h ih =>
    obtain ⟨_, rfl⟩ := addVertex_ok h
    simp only [Digraph.edges, edges_mapInsert_empty] at ih ⊢
    exact ih
  | addEdge a b e _ h ih =>
    obtain ⟨hc, _, _, rfl⟩ := addEdge_ok h
    simp only [Digraph.edges] at ih ⊢
    rw [edges_length_mapUpdate_append _ a _ hc, ih, uintIncr_mod]
  | removeVertex vertex _ h ih =>
    obtain ⟨_, hempty, rfl⟩ := removeVertex_ok h
    simp only [Digraph.edges, edges_mapErase_empty _ vertex hempty] at ih ⊢
    exact ih
  | @removeEdge g0 _ a b hg0 h ih =>
    have hwf := wellFormed_of_built hg0
    obtain ⟨_, _, hin, rfl⟩ := removeEdge_ok h
    have hmem : (a, b) ∈ g0.edges := (mem_edgesOfLoop_iff hwf a b).1 hin
    have herase := edges_mapUpdate_removeEdgeLoop a b g0.map hwf.1
      (fun entry he => (hwf.2 entry he).1)
    have hpos : 0 < g0.edges.length := List.length_pos_of_mem hmem
    have hlen : (g0.edges.erase (a, b)).length + 1 = g0.edges.length := by
      rw [List.length_erase_of_mem hmem]
      omega
    simp only [Digraph.edges] at ih hlen ⊢
    rw [herase, ih, ← hlen, uintDecr_mod]

/-- C4: in every graph obtained from the empty graph by successful calls of
`addVertex`, `addEdge`, `removeVertex` and `removeEdge` (the number of edges
being one that `int` can hold, below `2^31`), `edgeCount()` equals the number
of pairs returned by `edges()`. -/
theorem edgeCount_eq_length_edges (g : Digraph VertexInfo EdgeInfo) (hg : Built g)
    (hfit : g.edges.length < 2 ^ 31) : g.edgeCount = (g.edges.length : Int) := by
  unfold Digraph.edgeCount
  rw [edgeNumber_of_built hg]
  exact uintToInt_of_lt _ hfit

/-- C4 at the graph left by `addVertex(1)`, `addVertex(2)`, `addEdge(1,2)`,
`removeVertex(2)`. -/
theorem edgeCount_eq_length_edges_witness :
    Built graphAfterRemoveTarget ∧ graphAfterRemoveTarget.edges.length < 2 ^ 31 ∧
    graphAfterRemoveTarget.edgeCount = (graphAfterRemoveTarget.edges.length : Int) :=
  ⟨graphAfterRemoveTarget_built, by decide,
    edgeCount_eq_length_edges graphAfterRemoveTarget graphAfterRemoveTarget_built (by decide)⟩

/-! ## removeEdge on an edge whose destination was removed -/

/-- On the graph with vertices 1, 2 and the edge 1 → 2, `removeVertex(1)`
reaches the undefined step of its inner loop; the run stops there with the
edge erased from the list of vertex 1, the entry of vertex 1 still in the map
and both counters as they were. -/
theorem removeVertex_with_edge_undefined :
    graphOneEdge.removeVertex 1 = .error .undefinedBehaviour ∧
    graphOneEdge.removeVertexRun 1
      = ({ map := [(1, { vinfo := (), edges := [] }), (2, { vinfo := (), edges := [] })],
           vertexNumber := 2, edgeNumber := 1 }, some .undefinedBehaviour) :=
  ⟨rfl, rfl⟩

end TrafficOptimizer
